import Mathlib

set_option autoImplicit false

/-!
Formal model of the secret-shopper extraction pipeline
(`src/utils/ai_integration/agents.py` and `src/utils/web_scraper.py`).

The merge engine (`MasterOrchestratorAgent._intelligent_merge`) operates on
plain Python `dict`s parsed from JSON.  We embed those dicts as follows:

* scalar JSON values become `JVal`; Python's cross-type numeric equality
  (`1 == 1.0`) is captured by a single numeric constructor over `ℚ`;
  nested structures that the merge code never inspects are abstracted by
  carrying them in opaque `extra` association lists;
* a record dict becomes `CommunityData`: the four collection keys
  (`fees`, `floor_plans`, `community_amenities`, `community_pages`) are
  `Option (List _)` (`none` = key absent from the dict), every other
  top-level key lives in the `scalars` association list (a Python dict in
  insertion order; a well-formed dict has no duplicate keys);
* `dict.get(k, d)` on an entry dict is modelled by storing the looked-up
  fields directly (a missing key is conflated with the default the code
  supplies, which is the only way the code ever observes it).
-/

/-- Scalar JSON value as handled by the merge code; truthiness follows Python. -/
inductive JVal where
  | jstr (s : String)
  | jnum (q : Rat)
  | jbool (b : Bool)
  | jnull
  deriving DecidableEq, Repr

/-- Python truthiness of a scalar JSON value (`if value:` / `if new_plan.get(field):`). -/
def JVal.truthy : JVal → Bool
  | .jstr s => !s.isEmpty
  | .jnum q => decide (q ≠ 0)
  | .jbool b => b
  | .jnull => false

/-- Truthiness of `dict.get(key)`: a missing key (`none`) is falsy. -/
def truthyO : Option JVal → Bool
  | none => false
  | some v => v.truthy

/-- Fee entry dict. The merge reads `fee.get('fee_name', '')` and
`fee.get('fee_category', '')` and never touches any other field; the other
fields (amount, description, frequency, ...) ride along in `extra`. -/
structure Fee where
  fee_name : String
  fee_category : String
  extra : List (String × JVal)
  deriving DecidableEq, Repr

/-- Identity key of a fee: `(fee.get('fee_name', ''), fee.get('fee_category', ''))`. -/
def Fee.key (f : Fee) : String × String := (f.fee_name, f.fee_category)

/-- Floor-plan entry dict: the identity fields (`name`, `beds`, `baths`, read
with defaults `''`/`0`/`0`) plus the six fill-if-missing fields the merge
updates; all other fields ride along in `extra`. -/
structure FloorPlan where
  name : String
  beds : JVal
  baths : JVal
  min_rental_price : Option JVal
  max_rental_price : Option JVal
  sqft : Option JVal
  security_deposit : Option JVal
  image : Option JVal
  num_available : Option JVal
  extra : List (String × JVal)
  deriving DecidableEq, Repr

/-- Identity key of a floor plan:
`(fp.get('name', ''), fp.get('beds', 0), fp.get('baths', 0))`. -/
def FloorPlan.key (p : FloorPlan) : String × JVal × JVal := (p.name, p.beds, p.baths)

/-- Community amenity entry dict; keyed by `amenity.get('amenity', '')`. -/
structure Amenity where
  amenity : String
  extra : List (String × JVal)
  deriving DecidableEq, Repr

/-- Community page entry dict; `url`/`name` are `Option` because
`page.get('url', page.get('name', ''))` distinguishes a present key (even
with a falsy value) from an absent one. -/
structure Page where
  url : Option JVal
  name : Option JVal
  extra : List (String × JVal)
  deriving DecidableEq, Repr

/-- Identity key of a page: `page.get('url', page.get('name', ''))`. -/
def Page.key (p : Page) : JVal :=
  match p.url with
  | some v => v
  | none =>
    match p.name with
    | some v => v
    | none => .jstr ""

/-- Top-level record dict (`CommunityInformation` serialized to JSON):
`none` in a collection field means the key is absent from the dict. -/
structure CommunityData where
  fees : Option (List Fee)
  floor_plans : Option (List FloorPlan)
  community_amenities : Option (List Amenity)
  community_pages : Option (List Page)
  scalars : List (String × JVal)
  deriving DecidableEq, Repr

/-- Python `merged.get(key)` over the scalar part of the dict
(first occurrence wins, as in a well-formed dict there is at most one). -/
def getScalar : List (String × JVal) → String → Option JVal
  | [], _ => none
  | (k, v) :: rest, key => if k = key then some v else getScalar rest key

/-- Python `merged[key] = value`: update the existing key in place or append
a new key at the end (dict insertion order). -/
def setScalar : List (String × JVal) → String → JVal → List (String × JVal)
  | [], key, v => [(key, v)]
  | (k, w) :: rest, key, v =>
    if k = key then (k, v) :: rest else (k, w) :: setScalar rest key v

/-- Python emptiness test `if not current_data:` — a dict is falsy iff it has
no keys at all. -/
def CommunityData.isEmptyDict (d : CommunityData) : Bool :=
  d.fees.isNone && d.floor_plans.isNone && d.community_amenities.isNone &&
    d.community_pages.isNone && d.scalars.isEmpty

/-- Number of entries of a collection field (an absent key has no entries). -/
def collLen {α : Type} (o : Option (List α)) : Nat := (o.getD []).length

/-- Shared shape of the fees / amenities / pages branches of
`_intelligent_merge`: an index of the existing entries' keys is built once,
then each incoming entry is appended iff its key is not in that static index
(so the existing entries are never modified, and two incoming entries with
the same fresh key are both appended). -/
def mergeKeyed {α κ : Type} [DecidableEq κ] (key : α → κ) (cl nl : List α) : List α :=
  cl ++ nl.filter (fun x => !cl.any (fun y => decide (key y = key x)))

/-- Fees branch of `_intelligent_merge` (agents.py lines 1081-1091). -/
def mergeFees (cf nf : List Fee) : List Fee := mergeKeyed Fee.key cf nf

/-- Amenities branch of `_intelligent_merge` (agents.py lines 1115-1122). -/
def mergeAmenities (ca na : List Amenity) : List Amenity := mergeKeyed Amenity.amenity ca na

/-- Pages branch of `_intelligent_merge` (agents.py lines 1126-1133). -/
def mergePages (cp np : List Page) : List Page := mergeKeyed Page.key cp np

/-- Per-field fill-if-missing:
`if new_plan.get(field) and not existing_plan.get(field): existing_plan[field] = new_plan[field]`. -/
def fillField (old new : Option JVal) : Option JVal :=
  if truthyO new && !truthyO old then new else old

/-- Update an existing floor plan in place with the fill-if-missing fields of
an incoming plan (agents.py lines 1107-1111); the identity fields are untouched. -/
def fillPlan (old new : FloorPlan) : FloorPlan :=
  { old with
    min_rental_price := fillField old.min_rental_price new.min_rental_price
    max_rental_price := fillField old.max_rental_price new.max_rental_price
    sqft := fillField old.sqft new.sqft
    security_deposit := fillField old.security_deposit new.security_deposit
    image := fillField old.image new.image
    num_available := fillField old.num_available new.num_available }

/-- Apply `fillPlan p` to the last entry of the list whose key equals `p`'s.
`existing_plans` is a dict comprehension over the current list, so for a
duplicated key the last occurrence wins; mutating `existing_plans[key]`
mutates that list entry in place. -/
def updateLastPlan : List FloorPlan → FloorPlan → List FloorPlan
  | [], _ => []
  | q :: rest, p =>
    if rest.any (fun r => decide (r.key = p.key)) then q :: updateLastPlan rest p
    else if q.key = p.key then fillPlan q p :: rest
    else q :: rest

/-- Floor-plans branch of `_intelligent_merge` (agents.py lines 1095-1111):
the key index is built from the existing list only (appended plans are not
added to it), matching incoming plans update the indexed entry in place,
fresh ones are appended.  Appended plans have keys outside `cp`'s keys, so
updating the last matching entry of the evolving list coincides with
mutating the object the static dict comprehension indexed. -/
def mergePlans (cp np : List FloorPlan) : List FloorPlan :=
  np.foldl
    (fun st p =>
      if cp.any (fun q => decide (q.key = p.key)) then updateLastPlan st p
      else st ++ [p])
    cp

/-- Scalar-fields loop of `_intelligent_merge` (agents.py lines 1138-1141):
`if value and not merged.get(key): merged[key] = value`. -/
def mergeScalars (cur new : List (String × JVal)) : List (String × JVal) :=
  new.foldl
    (fun st kv =>
      if kv.2.truthy && !truthyO (getScalar st kv.1) then setScalar st kv.1 kv.2 else st)
    cur

/-- Option-level dispatch shared by the four collection branches:
`if key in new_data and key in merged: combine` / `elif key in new_data:
merged[key] = new_data[key]` / else leave `merged[key]` alone. -/
def mergeField {α : Type} (combine : List α → List α → List α) :
    Option (List α) → Option (List α) → Option (List α)
  | cur, new =>
    match new, cur with
    | some nl, some cl => some (combine cl nl)
    | some nl, none => some nl
    | none, _ => cur

/-- `MasterOrchestratorAgent._intelligent_merge` (agents.py lines 1041-1152).
The `merge_type` argument of the Python function is ignored by its body, so
it is omitted here. -/
def intelligentMerge (current new : CommunityData) : CommunityData :=
  if current.isEmptyDict then new
  else if new.isEmptyDict then current
  else
    { fees := mergeField mergeFees current.fees new.fees
      floor_plans := mergeField mergePlans current.floor_plans new.floor_plans
      community_amenities :=
        mergeField mergeAmenities current.community_amenities new.community_amenities
      community_pages := mergeField mergePages current.community_pages new.community_pages
      scalars := mergeScalars current.scalars new.scalars }

/-! Helper lemmas about the keyed append-if-new merge. -/

theorem anyKey_eq_true_iff {α κ : Type} [DecidableEq κ] (key : α → κ) (l : List α) (k : κ) :
    (l.any (fun y => decide (key y = k)) = true) ↔ k ∈ l.map key := by
  constructor
  · intro h
    obtain ⟨y, hy, hk⟩ := List.any_eq_true.mp h
    exact (of_decide_eq_true hk) ▸ List.mem_map_of_mem key hy
  · intro h
    obtain ⟨y, hy, hk⟩ := List.mem_map.mp h
    exact List.any_eq_true.mpr ⟨y, hy, decide_eq_true hk⟩

theorem mergeKeyed_length {α κ : Type} [DecidableEq κ] (key : α → κ) (cl nl : List α) :
    cl.length ≤ (mergeKeyed key cl nl).length := by
  simp only [mergeKeyed, List.length_append]
  omega

theorem mergeKeyed_all_mem {α κ : Type} [DecidableEq κ] (key : α → κ) (cl nl : List α)
    (h : ∀ x ∈ nl, key x ∈ cl.map key) : mergeKeyed key cl nl = cl := by
  unfold mergeKeyed
  have hf : nl.filter (fun x => !cl.any (fun y => decide (key y = key x))) = [] := by
    rw [List.filter_eq_nil_iff]
    intro a ha
    have hX : cl.any (fun y => decide (key y = key a)) = true :=
      (anyKey_eq_true_iff key cl (key a)).mpr (h a ha)
    simp [hX]
  rw [hf, List.append_nil]

theorem mergeKeyed_idem {α κ : Type} [DecidableEq κ] (key : α → κ) (cl nl : List α) :
    mergeKeyed key (mergeKeyed key cl nl) nl = mergeKeyed key cl nl := by
  apply mergeKeyed_all_mem
  intro x hx
  by_cases h : key x ∈ cl.map key
  · unfold mergeKeyed
    rw [List.map_append]
    exact List.mem_append_left _ h
  · unfold mergeKeyed
    rw [List.map_append]
    apply List.mem_append_right
    apply List.mem_map_of_mem
    rw [List.mem_filter]
    refine ⟨hx, ?_⟩
    have hX : cl.any (fun y => decide (key y = key x)) = false := by
      apply Bool.eq_false_iff.mpr
      intro hc
      exact h ((anyKey_eq_true_iff key cl (key x)).mp hc)
    simp [hX]

theorem mergeKeyed_nodup {α κ : Type} [DecidableEq κ] (key : α → κ) (cl nl : List α)
    (hc : (cl.map key).Nodup) (hn : (nl.map key).Nodup) :
    ((mergeKeyed key cl nl).map key).Nodup := by
  unfold mergeKeyed
  rw [List.map_append]
  apply List.Nodup.append hc
  · exact hn.sublist (List.Sublist.map key (List.filter_sublist nl))
  · intro k hk1 hk2
    obtain ⟨a, ha, hka⟩ := List.mem_map.mp hk2
    obtain ⟨ha1, ha2⟩ := List.mem_filter.mp ha
    have hX : cl.any (fun y => decide (key y = key a)) = true :=
      (anyKey_eq_true_iff key cl (key a)).mpr (hka ▸ hk1)
    rw [hX] at ha2
    simp at ha2

/-! Helper lemmas about the scalar-field fill-if-missing loop. -/

theorem getScalar_setScalar_self (l : List (String × JVal)) (k : String) (v : JVal) :
    getScalar (setScalar l k v) k = some v := by
  induction l with
  | nil => simp [setScalar, getScalar]
  | cons kv rest ih =>
    by_cases h : kv.1 = k
    · simp [setScalar, getScalar, h]
    · simp [setScalar, getScalar, h, ih]

theorem getScalar_setScalar_ne (l : List (String × JVal)) (k k' : String) (v : JVal)
    (h : k' ≠ k) : getScalar (setScalar l k' v) k = getScalar l k := by
  induction l with
  | nil => simp [setScalar, getScalar, h]
  | cons kv rest ih =>
    by_cases hk : kv.1 = k'
    · simp [setScalar, getScalar, hk, h]
    · simp only [setScalar, hk, if_false, getScalar]
      by_cases hk2 : kv.1 = k
      · simp [hk2]
      · simp [hk2, ih]

theorem mergeScalars_preserve (new cur : List (String × JVal)) (k : String) (v : JVal)
    (hget : getScalar cur k = some v) (ht : v.truthy = true) :
    getScalar (mergeScalars cur new) k = some v := by
  induction new generalizing cur with
  | nil => simpa [mergeScalars]
  | cons kv rest ih =>
    show getScalar (mergeScalars (if kv.2.truthy && !truthyO (getScalar cur kv.1)
        then setScalar cur kv.1 kv.2 else cur) rest) k = some v
    by_cases hk : kv.1 = k
    · have hcond : ¬((kv.2.truthy && !truthyO (getScalar cur kv.1)) = true) := by
        rw [hk, hget]
        simp [truthyO, ht]
      rw [if_neg hcond]
      exact ih cur hget
    · by_cases hc : (kv.2.truthy && !truthyO (getScalar cur kv.1)) = true
      · rw [if_pos hc]
        exact ih _ (by rw [getScalar_setScalar_ne cur k kv.1 kv.2 hk]; exact hget)
      · rw [if_neg hc]
        exact ih cur hget

theorem mergeScalars_length (new cur : List (String × JVal)) :
    cur.length ≤ (mergeScalars cur new).length := by
  induction new generalizing cur with
  | nil => simp [mergeScalars]
  | cons kv rest ih =>
    show cur.length ≤ (mergeScalars (if kv.2.truthy && !truthyO (getScalar cur kv.1)
        then setScalar cur kv.1 kv.2 else cur) rest).length
    by_cases hc : kv.2.truthy && !truthyO (getScalar cur kv.1)
    · rw [if_pos hc]
      refine le_trans ?_ (ih (setScalar cur kv.1 kv.2))
      clear ih hc
      induction cur with
      | nil => simp [setScalar]
      | cons kw rest2 ih2 =>
        by_cases h : kw.1 = kv.1
        · simp [setScalar, h]
        · simp only [setScalar, h, if_false, List.length_cons]
          omega
    · rw [if_neg hc]
      exact ih cur

theorem mergeScalars_truthy_after (new cur : List (String × JVal)) (kv : String × JVal)
    (hmem : kv ∈ new) (ht : kv.2.truthy = true) :
    truthyO (getScalar (mergeScalars cur new) kv.1) = true := by
  induction new generalizing cur with
  | nil => cases hmem
  | cons kw rest ih =>
    show truthyO (getScalar (mergeScalars (if kw.2.truthy && !truthyO (getScalar cur kw.1)
        then setScalar cur kw.1 kw.2 else cur) rest) kv.1) = true
    rcases List.mem_cons.mp hmem with h1 | h1
    · subst h1
      by_cases hc : (kv.2.truthy && !truthyO (getScalar cur kv.1)) = true
      · rw [if_pos hc]
        have hg : getScalar (setScalar cur kv.1 kv.2) kv.1 = some kv.2 :=
          getScalar_setScalar_self cur kv.1 kv.2
        rw [mergeScalars_preserve rest (setScalar cur kv.1 kv.2) kv.1 kv.2 hg ht]
        simpa [truthyO]
      · rw [if_neg hc]
        have htr : truthyO (getScalar cur kv.1) = true := by
          by_contra hfalse
          apply hc
          rw [ht]
          simp only [Bool.not_eq_true] at hfalse
          simp [hfalse]
        obtain ⟨v, hv⟩ : ∃ v, getScalar cur kv.1 = some v := by
          cases hgv : getScalar cur kv.1 with
          | none => rw [hgv] at htr; simp [truthyO] at htr
          | some v => exact ⟨v, rfl⟩
        have hvt : v.truthy = true := by rw [hv] at htr; simpa [truthyO] using htr
        rw [mergeScalars_preserve rest cur kv.1 v hv hvt]
        simpa [truthyO]
    · exact ih _ h1

/-! Helper lemmas about the floor-plan in-place update. -/

/-- Last entry of the list with the given identity key — the object that the
`existing_plans` dict comprehension associates with that key. -/
def findLastKey : List FloorPlan → String × JVal × JVal → Option FloorPlan
  | [], _ => none
  | q :: rest, k =>
    match findLastKey rest k with
    | some e => some e
    | none => if q.key = k then some q else none

theorem fillPlan_key (q p : FloorPlan) : (fillPlan q p).key = q.key := rfl

theorem fillField_self (o : Option JVal) : fillField o o = o := by
  unfold fillField
  cases h : truthyO o <;> simp [h]

theorem fillPlan_self (p : FloorPlan) : fillPlan p p = p := by
  simp [fillPlan, fillField_self]

theorem fillField_fillField (o n : Option JVal) :
    fillField (fillField o n) n = fillField o n := by
  unfold fillField
  cases hn : truthyO n <;> cases ho : truthyO o <;> simp [hn, ho]

theorem fillPlan_fillPlan (q p : FloorPlan) : fillPlan (fillPlan q p) p = fillPlan q p := by
  simp [fillPlan, fillField_fillField]

theorem updateLastPlan_length (st : List FloorPlan) (p : FloorPlan) :
    (updateLastPlan st p).length = st.length := by
  induction st with
  | nil => rfl
  | cons q rest ih =>
    unfold updateLastPlan
    by_cases h1 : (rest.any (fun r => decide (r.key = p.key))) = true
    · simp [h1, ih]
    · by_cases h2 : q.key = p.key <;> simp [h1, h2]

theorem updateLastPlan_map_key (st : List FloorPlan) (p : FloorPlan) :
    (updateLastPlan st p).map FloorPlan.key = st.map FloorPlan.key := by
  induction st with
  | nil => rfl
  | cons q rest ih =>
    unfold updateLastPlan
    by_cases h1 : (rest.any (fun r => decide (r.key = p.key))) = true
    · simp [h1, ih]
    · by_cases h2 : q.key = p.key <;> simp [h1, h2, fillPlan_key]

theorem findLastKey_cons_some (q : FloorPlan) (rest : List FloorPlan)
    (k : String × JVal × JVal) (e : FloorPlan) (h : findLastKey rest k = some e) :
    findLastKey (q :: rest) k = some e := by
  unfold findLastKey
  rw [h]

theorem findLastKey_cons_none (q : FloorPlan) (rest : List FloorPlan)
    (k : String × JVal × JVal) (h : findLastKey rest k = none) :
    findLastKey (q :: rest) k = if q.key = k then some q else none := by
  unfold findLastKey
  rw [h]

theorem findLastKey_isSome_eq_any (st : List FloorPlan) (k : String × JVal × JVal) :
    (findLastKey st k).isSome = st.any (fun r => decide (r.key = k)) := by
  induction st with
  | nil => rfl
  | cons q rest ih =>
    unfold findLastKey
    cases hrest : findLastKey rest k with
    | some e =>
      have : rest.any (fun r => decide (r.key = k)) = true := by
        rw [← ih, hrest]; rfl
      simp [this]
    | none =>
      have hany : rest.any (fun r => decide (r.key = k)) = false := by
        rw [← ih, hrest]; rfl
      by_cases h2 : q.key = k <;> simp [h2, hany]

theorem findLastKey_key (st : List FloorPlan) (k : String × JVal × JVal) (e : FloorPlan)
    (h : findLastKey st k = some e) : e.key = k := by
  induction st generalizing e with
  | nil => cases h
  | cons q rest ih =>
    cases hrest : findLastKey rest k with
    | some e' =>
      rw [findLastKey_cons_some q rest k e' hrest] at h
      rw [← Option.some.inj h]
      exact ih e' hrest
    | none =>
      rw [findLastKey_cons_none q rest k hrest] at h
      by_cases h2 : q.key = k
      · rw [if_pos h2] at h
        cases h
        exact h2
      · rw [if_neg h2] at h
        cases h

theorem findLastKey_append_single (st : List FloorPlan) (q : FloorPlan)
    (k : String × JVal × JVal) :
    findLastKey (st ++ [q]) k = if q.key = k then some q else findLastKey st k := by
  induction st with
  | nil =>
    simp only [List.nil_append]
    unfold findLastKey
    rfl
  | cons r rest ih =>
    show findLastKey (r :: (rest ++ [q])) k = _
    unfold findLastKey
    rw [ih]
    by_cases h2 : q.key = k
    · simp [h2]
    · simp only [h2, if_false]

theorem findLastKey_updateLastPlan_ne (st : List FloorPlan) (q : FloorPlan)
    (k : String × JVal × JVal) (hne : q.key ≠ k) :
    findLastKey (updateLastPlan st q) k = findLastKey st k := by
  induction st with
  | nil => rfl
  | cons r rest ih =>
    unfold updateLastPlan
    by_cases h1 : (rest.any (fun r' => decide (r'.key = q.key))) = true
    · rw [if_pos h1]
      show findLastKey (r :: updateLastPlan rest q) k = findLastKey (r :: rest) k
      unfold findLastKey
      rw [ih]
    · rw [if_neg h1]
      by_cases h2 : r.key = q.key
      · rw [if_pos h2]
        cases hrest : findLastKey rest k with
        | some e =>
          rw [findLastKey_cons_some (fillPlan r q) rest k e hrest,
            findLastKey_cons_some r rest k e hrest]
        | none =>
          have hrk : r.key ≠ k := by rw [h2]; exact hne
          rw [findLastKey_cons_none (fillPlan r q) rest k hrest,
            findLastKey_cons_none r rest k hrest, fillPlan_key, if_neg hrk, if_neg hrk]
      · rw [if_neg h2]

theorem findLastKey_updateLastPlan_self (st : List FloorPlan) (q : FloorPlan) (e : FloorPlan)
    (h : findLastKey st q.key = some e) :
    findLastKey (updateLastPlan st q) q.key = some (fillPlan e q) := by
  induction st generalizing e with
  | nil => cases h
  | cons r rest ih =>
    unfold updateLastPlan
    by_cases h1 : (rest.any (fun r' => decide (r'.key = q.key))) = true
    · rw [if_pos h1]
      have hsome : (findLastKey rest q.key).isSome = true := by
        rw [findLastKey_isSome_eq_any]; exact h1
      obtain ⟨e', he'⟩ := Option.isSome_iff_exists.mp hsome
      have he : e' = e := by
        rw [findLastKey_cons_some r rest q.key e' he'] at h
        exact Option.some.inj h
      rw [← he]
      exact findLastKey_cons_some r _ q.key (fillPlan e' q) (ih e' he')
    · rw [if_neg h1]
      have hnone : findLastKey rest q.key = none := by
        cases hr : findLastKey rest q.key with
        | none => rfl
        | some e' =>
          exfalso
          apply h1
          rw [← findLastKey_isSome_eq_any, hr]
          rfl
      rw [findLastKey_cons_none r rest q.key hnone] at h
      by_cases h2 : r.key = q.key
      · rw [if_pos h2]
        rw [if_pos h2] at h
        have hre : r = e := by cases h; rfl
        subst hre
        rw [findLastKey_cons_none (fillPlan r q) rest q.key hnone,
          if_pos (by rw [fillPlan_key]; exact h2)]
      · exfalso
        rw [if_neg h2] at h
        cases h

theorem updateLastPlan_eq_self (st : List FloorPlan) (p : FloorPlan)
    (h : ∀ e, findLastKey st p.key = some e → fillPlan e p = e) :
    updateLastPlan st p = st := by
  induction st with
  | nil => rfl
  | cons q rest ih =>
    unfold updateLastPlan
    by_cases h1 : (rest.any (fun r => decide (r.key = p.key))) = true
    · rw [if_pos h1]
      have hsome : (findLastKey rest p.key).isSome = true := by
        rw [findLastKey_isSome_eq_any]; exact h1
      obtain ⟨e', he'⟩ := Option.isSome_iff_exists.mp hsome
      have : updateLastPlan rest p = rest := by
        apply ih
        intro e he
        apply h
        unfold findLastKey
        rw [he]
      rw [this]
    · rw [if_neg h1]
      have hnone : findLastKey rest p.key = none := by
        cases hr : findLastKey rest p.key with
        | none => rfl
        | some e' =>
          exfalso
          apply h1
          rw [← findLastKey_isSome_eq_any, hr]
          rfl
      by_cases h2 : q.key = p.key
      · rw [if_pos h2]
        have : fillPlan q p = q := by
          apply h
          unfold findLastKey
          rw [hnone, if_pos h2]
        rw [this]
      · rw [if_neg h2]

/-! Lemmas about the floor-plans merge fold. -/

theorem findLastKey_eq_none_of_not_mem (l : List FloorPlan) (k : String × JVal × JVal)
    (h : k ∉ l.map FloorPlan.key) : findLastKey l k = none := by
  have hany : l.any (fun r => decide (r.key = k)) = false := by
    apply Bool.eq_false_iff.mpr
    intro hc
    exact h ((anyKey_eq_true_iff FloorPlan.key l k).mp hc)
  cases hfl : findLastKey l k with
  | none => rfl
  | some e =>
    exfalso
    have : (findLastKey l k).isSome = true := by rw [hfl]; rfl
    rw [findLastKey_isSome_eq_any, hany] at this
    cases this

theorem findLastKey_of_nodup_mem (l : List FloorPlan) (p : FloorPlan)
    (hnd : (l.map FloorPlan.key).Nodup) (hm : p ∈ l) : findLastKey l p.key = some p := by
  induction l with
  | nil => cases hm
  | cons q rest ih =>
    rw [List.map_cons, List.nodup_cons] at hnd
    rcases List.mem_cons.mp hm with h1 | h1
    · rw [h1]
      rw [findLastKey_cons_none q rest q.key
        (findLastKey_eq_none_of_not_mem rest q.key hnd.1), if_pos rfl]
    · exact findLastKey_cons_some q rest p.key p (ih hnd.2 h1)

theorem mergePlansStep_length (cp : List FloorPlan) (st : List FloorPlan) (p : FloorPlan) :
    st.length ≤ ((if cp.any (fun q => decide (q.key = p.key))
      then updateLastPlan st p else st ++ [p]) : List FloorPlan).length := by
  by_cases h : (cp.any (fun q => decide (q.key = p.key))) = true
  · rw [if_pos h, updateLastPlan_length]
  · rw [if_neg h]
    simp

theorem mergePlans_foldl_length (cp np st : List FloorPlan) :
    st.length ≤ (np.foldl (fun st p =>
      if cp.any (fun q => decide (q.key = p.key)) then updateLastPlan st p
      else st ++ [p]) st).length := by
  induction np generalizing st with
  | nil => exact le_refl _
  | cons p np' ih =>
    exact le_trans (mergePlansStep_length cp st p) (ih _)

theorem mergePlans_length (cp np : List FloorPlan) :
    cp.length ≤ (mergePlans cp np).length :=
  mergePlans_foldl_length cp np cp

/-- A merge-fold step never loses an identity key already bound in the state. -/
theorem mergePlansStep_isSome (cp : List FloorPlan) (st : List FloorPlan) (p : FloorPlan)
    (k : String × JVal × JVal) (h : (findLastKey st k).isSome = true) :
    (findLastKey ((if cp.any (fun q => decide (q.key = p.key))
      then updateLastPlan st p else st ++ [p]) : List FloorPlan) k).isSome = true := by
  by_cases hc : (cp.any (fun q => decide (q.key = p.key))) = true
  · rw [if_pos hc]
    by_cases hk : p.key = k
    · subst hk
      obtain ⟨e, he⟩ := Option.isSome_iff_exists.mp h
      rw [findLastKey_updateLastPlan_self st p e he]
      rfl
    · rw [findLastKey_updateLastPlan_ne st p k hk]
      exact h
  · rw [if_neg hc, findLastKey_append_single]
    by_cases hk : p.key = k
    · rw [if_pos hk]
      rfl
    · rw [if_neg hk]
      exact h

/-- Fold steps for plans whose keys avoid `k` leave the entry at `k` untouched. -/
theorem mergePlans_foldl_stable (cp np st : List FloorPlan) (k : String × JVal × JVal)
    (hk : k ∉ np.map FloorPlan.key) :
    findLastKey (np.foldl (fun st p =>
      if cp.any (fun q => decide (q.key = p.key)) then updateLastPlan st p
      else st ++ [p]) st) k = findLastKey st k := by
  induction np generalizing st with
  | nil => rfl
  | cons p np' ih =>
    rw [List.map_cons, List.mem_cons] at hk
    push_neg at hk
    have hpk : p.key ≠ k := fun h => hk.1 h.symm
    simp only [List.foldl_cons]
    rw [ih _ hk.2]
    by_cases hc : (cp.any (fun q => decide (q.key = p.key))) = true
    · rw [if_pos hc]
      exact findLastKey_updateLastPlan_ne st p k hpk
    · rw [if_neg hc, findLastKey_append_single, if_neg hpk]

/-- After the merge fold, the entry indexed at each incoming plan's key has
absorbed that plan's fill-if-missing fields (incoming keys pairwise distinct). -/
theorem mergePlans_saturated_aux (cp : List FloorPlan) (np st : List FloorPlan)
    (hnd : (np.map FloorPlan.key).Nodup)
    (hcov : ∀ k, (cp.any (fun q => decide (q.key = k))) = true →
      (findLastKey st k).isSome = true) :
    ∀ p ∈ np, ∃ e, findLastKey (np.foldl (fun st p =>
      if cp.any (fun q => decide (q.key = p.key)) then updateLastPlan st p
      else st ++ [p]) st) p.key = some e ∧ fillPlan e p = e := by
  induction np generalizing st with
  | nil => intro p hp; cases hp
  | cons q np' ih =>
    rw [List.map_cons, List.nodup_cons] at hnd
    intro p hp
    simp only [List.foldl_cons]
    rcases List.mem_cons.mp hp with h1 | h1
    · rw [h1]
      rw [mergePlans_foldl_stable cp np' _ q.key hnd.1]
      by_cases hc : (cp.any (fun q' => decide (q'.key = q.key))) = true
      · rw [if_pos hc]
        obtain ⟨e0, he0⟩ := Option.isSome_iff_exists.mp (hcov q.key hc)
        exact ⟨fillPlan e0 q, findLastKey_updateLastPlan_self st q e0 he0,
          fillPlan_fillPlan e0 q⟩
      · rw [if_neg hc]
        refine ⟨q, ?_, fillPlan_self q⟩
        rw [findLastKey_append_single, if_pos rfl]
    · exact ih _ hnd.2 (fun k hk => mergePlansStep_isSome cp st q k (hcov k hk)) p h1

theorem mergePlans_saturated (cp np : List FloorPlan)
    (hnd : (np.map FloorPlan.key).Nodup) :
    ∀ p ∈ np, ∃ e, findLastKey (mergePlans cp np) p.key = some e ∧ fillPlan e p = e := by
  apply mergePlans_saturated_aux cp np cp hnd
  intro k hk
  rw [findLastKey_isSome_eq_any]
  exact hk

/-- Merging into a state that is already saturated for every incoming plan is
a no-op. -/
theorem mergePlans_stable (M np : List FloorPlan)
    (h : ∀ p ∈ np, ∃ e, findLastKey M p.key = some e ∧ fillPlan e p = e) :
    mergePlans M np = M := by
  unfold mergePlans
  induction np with
  | nil => rfl
  | cons p np' ih =>
    obtain ⟨e, he, hf⟩ := h p (List.mem_cons_self p np')
    have hany : (M.any (fun q => decide (q.key = p.key))) = true := by
      rw [← findLastKey_isSome_eq_any, he]
      rfl
    have hstep : (if M.any (fun q => decide (q.key = p.key))
        then updateLastPlan M p else M ++ [p]) = M := by
      rw [if_pos hany]
      apply updateLastPlan_eq_self
      intro e' he'
      rw [he] at he'
      rw [← Option.some.inj he']
      exact hf
    show List.foldl _ ((if M.any (fun q => decide (q.key = p.key))
        then updateLastPlan M p else M ++ [p]) : List FloorPlan) np' = M
    rw [hstep]
    exact ih (fun p' hp' => h p' (List.mem_cons_of_mem p hp'))

theorem mergePlans_idem (cp np : List FloorPlan) (hnd : (np.map FloorPlan.key).Nodup) :
    mergePlans (mergePlans cp np) np = mergePlans cp np :=
  mergePlans_stable (mergePlans cp np) np (mergePlans_saturated cp np hnd)

theorem mergePlans_self (np : List FloorPlan) (hnd : (np.map FloorPlan.key).Nodup) :
    mergePlans np np = np :=
  mergePlans_stable np np
    (fun p hp => ⟨p, findLastKey_of_nodup_mem np p hnd hp, fillPlan_self p⟩)

theorem mergePlans_nodup_aux (cp : List FloorPlan) (np st : List FloorPlan)
    (hst : (st.map FloorPlan.key).Nodup)
    (hcov : ∀ k ∈ st.map FloorPlan.key, k ∈ cp.map FloorPlan.key ∨ k ∉ np.map FloorPlan.key)
    (hnd : (np.map FloorPlan.key).Nodup) :
    ((np.foldl (fun st p =>
      if cp.any (fun q => decide (q.key = p.key)) then updateLastPlan st p
      else st ++ [p]) st).map FloorPlan.key).Nodup := by
  induction np generalizing st with
  | nil => exact hst
  | cons p np' ih =>
    rw [List.map_cons, List.nodup_cons] at hnd
    show ((np'.foldl _ ((if cp.any (fun q => decide (q.key = p.key))
        then updateLastPlan st p else st ++ [p]) : List FloorPlan)).map FloorPlan.key).Nodup
    by_cases hc : (cp.any (fun q => decide (q.key = p.key))) = true
    · rw [if_pos hc]
      apply ih (updateLastPlan st p) ?_ ?_ hnd.2
      · rw [updateLastPlan_map_key]
        exact hst
      · rw [updateLastPlan_map_key]
        intro k hk
        rcases hcov k hk with h | h
        · exact Or.inl h
        · right
          intro hmem
          exact h (by rw [List.map_cons]; exact List.mem_cons_of_mem _ hmem)
    · rw [if_neg hc]
      apply ih (st ++ [p]) ?_ ?_ hnd.2
      · rw [List.map_append]
        rw [List.nodup_append]
        refine ⟨hst, List.nodup_singleton _, ?_⟩
        intro k hk1 hk2
        simp only [List.map_cons, List.map_nil, List.mem_singleton] at hk2
        subst hk2
        rcases hcov _ hk1 with h | h
        · exact hc ((anyKey_eq_true_iff FloorPlan.key cp p.key).mpr h)
        · exact h (by rw [List.map_cons]; exact List.mem_cons_self _ _)
      · intro k hk
        rw [List.map_append] at hk
        rcases List.mem_append.mp hk with hk | hk
        · rcases hcov k hk with h | h
          · exact Or.inl h
          · right
            intro hmem
            exact h (by rw [List.map_cons]; exact List.mem_cons_of_mem _ hmem)
        · simp only [List.map_cons, List.map_nil, List.mem_singleton] at hk
          subst hk
          right
          exact hnd.1

theorem mergePlans_nodup (cp np : List FloorPlan)
    (hc : (cp.map FloorPlan.key).Nodup) (hn : (np.map FloorPlan.key).Nodup) :
    ((mergePlans cp np).map FloorPlan.key).Nodup :=
  mergePlans_nodup_aux cp np cp hc (fun _ hk => Or.inl hk) hn

/-! Record-level lemmas about `intelligentMerge`. -/

theorem isEmptyDict_spec (d : CommunityData) (h : d.isEmptyDict = true) :
    d.fees = none ∧ d.floor_plans = none ∧ d.community_amenities = none ∧
      d.community_pages = none ∧ d.scalars = [] := by
  unfold CommunityData.isEmptyDict at h
  simp only [Bool.and_eq_true, Option.isNone_iff_eq_none, List.isEmpty_iff] at h
  tauto

/-- On two non-empty dicts, `_intelligent_merge` takes the main branch. -/
theorem intelligentMerge_main (A P : CommunityData)
    (hA : A.isEmptyDict = false) (hP : P.isEmptyDict = false) :
    intelligentMerge A P =
      { fees := mergeField mergeFees A.fees P.fees
        floor_plans := mergeField mergePlans A.floor_plans P.floor_plans
        community_amenities :=
          mergeField mergeAmenities A.community_amenities P.community_amenities
        community_pages := mergeField mergePages A.community_pages P.community_pages
        scalars := mergeScalars A.scalars P.scalars } := by
  unfold intelligentMerge
  rw [if_neg (by rw [hA]; exact Bool.false_ne_true),
    if_neg (by rw [hP]; exact Bool.false_ne_true)]

theorem mergeField_none {α : Type} (f : List α → List α → List α)
    (cur new : Option (List α)) (h : mergeField f cur new = none) : cur = none := by
  cases new with
  | some nl =>
    cases cur with
    | some cl => simp [mergeField] at h
    | none => simp [mergeField] at h
  | none =>
    cases cur with
    | some cl => simpa [mergeField] using h
    | none => rfl

/-- Merging into a non-empty accumulator yields a non-empty accumulator. -/
theorem intelligentMerge_nonempty (A P : CommunityData) (h : A.isEmptyDict = false) :
    (intelligentMerge A P).isEmptyDict = false := by
  by_cases hP : P.isEmptyDict = true
  · unfold intelligentMerge
    rw [if_neg (by rw [h]; exact Bool.false_ne_true), if_pos hP]
    exact h
  · rw [intelligentMerge_main A P h (Bool.eq_false_iff.mpr hP)]
    apply Bool.eq_false_iff.mpr
    intro hM
    obtain ⟨h1, h2, h3, h4, h5⟩ := isEmptyDict_spec _ hM
    dsimp only at h1 h2 h3 h4 h5
    have hsc : A.scalars = [] := by
      have hlen := mergeScalars_length P.scalars A.scalars
      rw [h5] at hlen
      exact List.length_eq_zero.mp (Nat.le_zero.mp hlen)
    have hA : A.isEmptyDict = true := by
      unfold CommunityData.isEmptyDict
      rw [mergeField_none _ _ _ h1, mergeField_none _ _ _ h2, mergeField_none _ _ _ h3,
        mergeField_none _ _ _ h4, hsc]
      rfl
    rw [hA] at h
    cases h

theorem mergeKeyed_self {α κ : Type} [DecidableEq κ] (key : α → κ) (l : List α) :
    mergeKeyed key l l = l :=
  mergeKeyed_all_mem key l l (fun x hx => List.mem_map_of_mem key hx)

theorem mergeField_keyed_idem {α κ : Type} [DecidableEq κ] (key : α → κ)
    (cur new : Option (List α)) :
    mergeField (mergeKeyed key) (mergeField (mergeKeyed key) cur new) new =
      mergeField (mergeKeyed key) cur new := by
  cases new with
  | none => rfl
  | some nl =>
    cases cur with
    | none => simp [mergeField, mergeKeyed_self]
    | some cl => simp [mergeField, mergeKeyed_idem]

theorem mergeField_plans_idem (cur new : Option (List FloorPlan))
    (h : ((new.getD []).map FloorPlan.key).Nodup) :
    mergeField mergePlans (mergeField mergePlans cur new) new =
      mergeField mergePlans cur new := by
  cases new with
  | none => rfl
  | some np =>
    simp only [Option.getD_some] at h
    cases cur with
    | none => simp [mergeField, mergePlans_self np h]
    | some cp => simp [mergeField, mergePlans_idem cp np h]

theorem mergeScalars_stable (M new : List (String × JVal))
    (h : ∀ kv ∈ new, kv.2.truthy = true → truthyO (getScalar M kv.1) = true) :
    mergeScalars M new = M := by
  induction new with
  | nil => rfl
  | cons kv rest ih =>
    show mergeScalars (if kv.2.truthy && !truthyO (getScalar M kv.1)
        then setScalar M kv.1 kv.2 else M) rest = M
    have hcond : ¬((kv.2.truthy && !truthyO (getScalar M kv.1)) = true) := by
      cases ht : kv.2.truthy with
      | false => simp [ht]
      | true => simp [ht, h kv (List.mem_cons_self kv rest) ht]
    rw [if_neg hcond]
    exact ih (fun kv' hm => h kv' (List.mem_cons_of_mem kv hm))

theorem mergeScalars_idem (cur new : List (String × JVal)) :
    mergeScalars (mergeScalars cur new) new = mergeScalars cur new :=
  mergeScalars_stable _ new
    (fun kv hm ht => mergeScalars_truthy_after new cur kv hm ht)

theorem getScalar_of_nodup_mem (l : List (String × JVal)) (kv : String × JVal)
    (hnd : (l.map Prod.fst).Nodup) (hm : kv ∈ l) : getScalar l kv.1 = some kv.2 := by
  induction l with
  | nil => cases hm
  | cons kw rest ih =>
    rw [List.map_cons, List.nodup_cons] at hnd
    rcases List.mem_cons.mp hm with h1 | h1
    · rw [h1]
      show (if kw.1 = kw.1 then some kw.2 else getScalar rest kw.1) = some kw.2
      rw [if_pos rfl]
    · show (if kw.1 = kv.1 then some kw.2 else getScalar rest kv.1) = some kv.2
      have hne : kw.1 ≠ kv.1 := by
        intro he
        exact hnd.1 (he ▸ List.mem_map_of_mem Prod.fst h1)
      rw [if_neg hne]
      exact ih hnd.2 h1

theorem mergeScalars_self (sc : List (String × JVal))
    (hnd : (sc.map Prod.fst).Nodup) : mergeScalars sc sc = sc := by
  apply mergeScalars_stable
  intro kv hm ht
  rw [getScalar_of_nodup_mem sc kv hnd hm]
  simpa [truthyO]

theorem mergeField_keyed_self {α κ : Type} [DecidableEq κ] (key : α → κ)
    (o : Option (List α)) : mergeField (mergeKeyed key) o o = o := by
  cases o with
  | none => rfl
  | some l => simp [mergeField, mergeKeyed_self]

theorem mergeField_plans_self (o : Option (List FloorPlan))
    (h : ((o.getD []).map FloorPlan.key).Nodup) : mergeField mergePlans o o = o := by
  cases o with
  | none => rfl
  | some np =>
    simp only [Option.getD_some] at h
    simp [mergeField, mergePlans_self np h]

/-- Merging a well-formed partial into itself is the identity. -/
theorem intelligentMerge_self (P : CommunityData)
    (hplans : ((P.floor_plans.getD []).map FloorPlan.key).Nodup)
    (hsc : (P.scalars.map Prod.fst).Nodup) :
    intelligentMerge P P = P := by
  by_cases hP : P.isEmptyDict = true
  · unfold intelligentMerge
    rw [if_pos hP]
  · rw [intelligentMerge_main P P (Bool.eq_false_iff.mpr hP) (Bool.eq_false_iff.mpr hP)]
    rw [show mergeField mergeFees P.fees P.fees = P.fees from mergeField_keyed_self Fee.key P.fees]
    rw [mergeField_plans_self P.floor_plans hplans]
    rw [show mergeField mergeAmenities P.community_amenities P.community_amenities
      = P.community_amenities from mergeField_keyed_self Amenity.amenity P.community_amenities]
    rw [show mergeField mergePages P.community_pages P.community_pages
      = P.community_pages from mergeField_keyed_self Page.key P.community_pages]
    rw [mergeScalars_self P.scalars hsc]

theorem mergeField_collLen {α : Type} (f : List α → List α → List α)
    (hf : ∀ cl nl, cl.length ≤ (f cl nl).length) (cur new : Option (List α)) :
    collLen cur ≤ collLen (mergeField f cur new) := by
  cases new with
  | none => exact le_refl _
  | some nl =>
    cases cur with
    | none => exact Nat.zero_le _
    | some cl => simpa [collLen, mergeField] using hf cl nl

theorem mergeField_keyed_nodup {α κ : Type} [DecidableEq κ] (key : α → κ)
    (cur new : Option (List α))
    (hc : ((cur.getD []).map key).Nodup) (hn : ((new.getD []).map key).Nodup) :
    (((mergeField (mergeKeyed key) cur new).getD []).map key).Nodup := by
  cases new with
  | none => exact hc
  | some nl =>
    cases cur with
    | none => exact hn
    | some cl =>
      simp only [Option.getD_some] at hc hn
      simp only [mergeField, Option.getD_some]
      exact mergeKeyed_nodup key cl nl hc hn

theorem mergeField_plans_nodup (cur new : Option (List FloorPlan))
    (hc : ((cur.getD []).map FloorPlan.key).Nodup)
    (hn : ((new.getD []).map FloorPlan.key).Nodup) :
    (((mergeField mergePlans cur new).getD []).map FloorPlan.key).Nodup := by
  cases new with
  | none => exact hc
  | some nl =>
    cases cur with
    | none => exact hn
    | some cl =>
      simp only [Option.getD_some] at hc hn
      simp only [mergeField, Option.getD_some]
      exact mergePlans_nodup cl nl hc hn

/-! Concrete records used to exercise the merge claims. -/

/-- Empty accumulator: the orchestration starts from `current_data = {}`. -/
def emptyCommunityData : CommunityData := ⟨none, none, none, none, []⟩

/-- Floor plan `("1BR", 1, 1, price=1500)` as extracted from URL A. -/
def planPriceOnly : FloorPlan :=
  ⟨"1BR", .jnum 1, .jnum 1, some (.jnum 1500), none, none, none, none, none, []⟩

/-- Floor plan `("1BR", 1, 1, price=1500, sqft=650)` as extracted from URL B. -/
def planPriceSqft : FloorPlan :=
  ⟨"1BR", .jnum 1, .jnum 1, some (.jnum 1500), none, some (.jnum 650), none, none, none, []⟩

/-- Partial record the floor-plan tool builds around the URL-A extraction
(`CommunityInformation(name="", overview="", url=..., floor_plans=[...], fees=[], ...)`). -/
def c7partA : CommunityData :=
  ⟨some [], some [planPriceOnly], some [], some [],
    [("name", .jstr ""), ("overview", .jstr ""),
     ("url", .jstr "https://example.com/floorplans-a")]⟩

/-- Partial record for the URL-B extraction of the same 1BR/1/1 plan. -/
def c7partB : CommunityData :=
  ⟨some [], some [planPriceSqft], some [], some [],
    [("name", .jstr ""), ("overview", .jstr ""),
     ("url", .jstr "https://example.com/floorplans-b")]⟩

/-- C7: merging `("1BR", 1, 1, price=1500)` and then
`("1BR", 1, 1, price=1500, sqft=650)` into the same (initially empty)
accumulator yields exactly one `1BR/1/1` floor plan carrying both
`price = 1500` and `sqft = 650`. -/
theorem claim_C7_concrete_merge_scenario :
    (intelligentMerge (intelligentMerge emptyCommunityData c7partA) c7partB).floor_plans
      = some [⟨"1BR", .jnum 1, .jnum 1, some (.jnum 1500), none, some (.jnum 650),
          none, none, none, []⟩] := by
  decide

/-- C1: `_intelligent_merge` never loses data — every collection of the merged
record has at least as many entries as the accumulator's, and every truthy
top-level scalar of the accumulator keeps exactly its value. -/
theorem claim_C1_merge_monotonicity (A P : CommunityData) :
    (collLen A.fees ≤ collLen (intelligentMerge A P).fees ∧
     collLen A.floor_plans ≤ collLen (intelligentMerge A P).floor_plans ∧
     collLen A.community_amenities ≤ collLen (intelligentMerge A P).community_amenities ∧
     collLen A.community_pages ≤ collLen (intelligentMerge A P).community_pages) ∧
    (∀ k v, getScalar A.scalars k = some v → v.truthy = true →
      getScalar (intelligentMerge A P).scalars k = some v) := by
  by_cases hA : A.isEmptyDict = true
  · have h1 : intelligentMerge A P = P := by
      unfold intelligentMerge
      rw [if_pos hA]
    obtain ⟨he1, he2, he3, he4, he5⟩ := isEmptyDict_spec A hA
    rw [h1]
    constructor
    · refine ⟨?_, ?_, ?_, ?_⟩ <;> simp [he1, he2, he3, he4, collLen]
    · intro k v hget _
      rw [he5] at hget
      simp [getScalar] at hget
  · by_cases hP : P.isEmptyDict = true
    · have h1 : intelligentMerge A P = A := by
        unfold intelligentMerge
        rw [if_neg hA, if_pos hP]
      rw [h1]
      exact ⟨⟨le_refl _, le_refl _, le_refl _, le_refl _⟩, fun _ _ h _ => h⟩
    · rw [intelligentMerge_main A P (Bool.eq_false_iff.mpr hA) (Bool.eq_false_iff.mpr hP)]
      dsimp only
      constructor
      · refine ⟨?_, ?_, ?_, ?_⟩
        · exact mergeField_collLen mergeFees
            (fun cl nl => mergeKeyed_length Fee.key cl nl) A.fees P.fees
        · exact mergeField_collLen mergePlans mergePlans_length A.floor_plans P.floor_plans
        · exact mergeField_collLen mergeAmenities
            (fun cl nl => mergeKeyed_length Amenity.amenity cl nl)
            A.community_amenities P.community_amenities
        · exact mergeField_collLen mergePages
            (fun cl nl => mergeKeyed_length Page.key cl nl)
            A.community_pages P.community_pages
      · intro k v hget ht
        exact mergeScalars_preserve P.scalars A.scalars k v hget ht

/-- Accumulator used to instantiate the C1 monotonicity theorem. -/
def c1acc : CommunityData :=
  ⟨some [⟨"Application Fee", "application", []⟩], none, none, none,
    [("name", .jstr "Sunset Apartments")]⟩

/-- Partial used to instantiate the C1 monotonicity theorem: its `name` must
not overwrite the accumulator's populated `name`. -/
def c1part : CommunityData :=
  ⟨some [⟨"Pet Fee", "pet", []⟩], none, none, none, [("name", .jstr "Other Name")]⟩

theorem claim_C1_witness :
    collLen c1acc.fees ≤ collLen (intelligentMerge c1acc c1part).fees ∧
    getScalar (intelligentMerge c1acc c1part).scalars "name"
      = some (.jstr "Sunset Apartments") :=
  ⟨(claim_C1_merge_monotonicity c1acc c1part).1.1,
   (claim_C1_merge_monotonicity c1acc c1part).2 "name" (.jstr "Sunset Apartments")
     (by decide) (by decide)⟩

/-! C2: merge idempotence. -/

/-- Floor plan `1BR/1/1` with only `sqft` populated. -/
def planDupSqft : FloorPlan :=
  ⟨"1BR", .jnum 1, .jnum 1, none, none, some (.jnum 650), none, none, none, []⟩

/-- Floor plan with the same identity key but only `min_rental_price` populated. -/
def planDupPrice : FloorPlan :=
  ⟨"1BR", .jnum 1, .jnum 1, some (.jnum 1500), none, none, none, none, none, []⟩

/-- Accumulator with an empty floor-plan list and a populated name. -/
def c2acc : CommunityData := ⟨none, some [], none, none, [("name", .jstr "X")]⟩

/-- Partial whose floor-plan list contains two entries with the same identity
key and complementary optional fields. -/
def c2part : CommunityData := ⟨none, some [planDupSqft, planDupPrice], none, none, []⟩

/-- C2 (counterexample): the merge is not idempotent as claimed.  When a
partial carries two floor plans sharing one identity key, the first merge
appends both (the key index is never refreshed inside the loop), and the
second merge funnels the first duplicate's fields into the second duplicate
(the dict comprehension keeps the last occurrence), changing the record. -/
theorem claim_C2_counterexample :
    intelligentMerge (intelligentMerge c2acc c2part) c2part ≠ intelligentMerge c2acc c2part := by
  decide

/-- C2 (amended): merging the same partial twice equals merging it once,
provided the partial is well formed for this purpose: no two of its incoming
floor plans share an identity key (and, as for any Python dict, its
top-level keys are not duplicated). -/
theorem claim_C2_merge_idempotence_amended (A P : CommunityData)
    (hplans : ((P.floor_plans.getD []).map FloorPlan.key).Nodup)
    (hsc : (P.scalars.map Prod.fst).Nodup) :
    intelligentMerge (intelligentMerge A P) P = intelligentMerge A P := by
  by_cases hA : A.isEmptyDict = true
  · have h1 : intelligentMerge A P = P := by
      unfold intelligentMerge
      rw [if_pos hA]
    rw [h1]
    exact intelligentMerge_self P hplans hsc
  · by_cases hP : P.isEmptyDict = true
    · have h1 : intelligentMerge A P = A := by
        unfold intelligentMerge
        rw [if_neg hA, if_pos hP]
      rw [h1]
      exact h1
    · have hA' : A.isEmptyDict = false := Bool.eq_false_iff.mpr hA
      have hP' : P.isEmptyDict = false := Bool.eq_false_iff.mpr hP
      have hM' : (intelligentMerge A P).isEmptyDict = false :=
        intelligentMerge_nonempty A P hA'
      rw [intelligentMerge_main (intelligentMerge A P) P hM' hP',
        intelligentMerge_main A P hA' hP']
      dsimp only
      rw [show mergeField mergeFees (mergeField mergeFees A.fees P.fees) P.fees
          = mergeField mergeFees A.fees P.fees from
          mergeField_keyed_idem Fee.key A.fees P.fees]
      rw [mergeField_plans_idem A.floor_plans P.floor_plans hplans]
      rw [show mergeField mergeAmenities
            (mergeField mergeAmenities A.community_amenities P.community_amenities)
            P.community_amenities
          = mergeField mergeAmenities A.community_amenities P.community_amenities from
          mergeField_keyed_idem Amenity.amenity A.community_amenities P.community_amenities]
      rw [show mergeField mergePages
            (mergeField mergePages A.community_pages P.community_pages) P.community_pages
          = mergeField mergePages A.community_pages P.community_pages from
          mergeField_keyed_idem Page.key A.community_pages P.community_pages]
      rw [mergeScalars_idem A.scalars P.scalars]

theorem claim_C2_witness :
    intelligentMerge (intelligentMerge c2acc c7partA) c7partA
      = intelligentMerge c2acc c7partA :=
  claim_C2_merge_idempotence_amended c2acc c7partA (by decide) (by decide)

/-! C3: identity-key uniqueness. -/

/-- Exact (case-sensitive) identity-key uniqueness of the four collections,
as the merge's dict indexes actually enforce it. -/
def keysUnique (d : CommunityData) : Prop :=
  ((d.fees.getD []).map Fee.key).Nodup ∧
  ((d.floor_plans.getD []).map FloorPlan.key).Nodup ∧
  ((d.community_amenities.getD []).map Amenity.amenity).Nodup ∧
  ((d.community_pages.getD []).map Page.key).Nodup

/-- ASCII lower-casing of a character, as Python's `str.lower()` acts on the
ASCII strings this code base compares. -/
def asciiLowerChar (c : Char) : Char :=
  if c.toNat ≥ 65 ∧ c.toNat ≤ 90 then Char.ofNat (c.toNat + 32) else c

/-- ASCII lower-casing of a string (kernel-computable model of `str.lower()`). -/
def asciiLower (s : String) : String := String.mk (s.data.map asciiLowerChar)

/-- Accumulator partial carrying the fee `("Pet Fee", "pet")`. -/
def c3first : CommunityData :=
  ⟨some [⟨"Pet Fee", "pet", []⟩], none, none, none, [("name", .jstr "X")]⟩

/-- Later partial carrying the same fee spelled in lower case. -/
def c3second : CommunityData := ⟨some [⟨"pet fee", "pet", []⟩], none, none, none, []⟩

/-- C3 (counterexample): the identity keys are compared exactly, not
case-insensitively — an accumulator built by two merges from the empty
record ends up with two distinct fee entries whose `(fee_name, fee_category)`
keys agree up to letter case. -/
theorem claim_C3_counterexample :
    (intelligentMerge (intelligentMerge emptyCommunityData c3first) c3second).fees
        = some [⟨"Pet Fee", "pet", []⟩, ⟨"pet fee", "pet", []⟩] ∧
    asciiLower "Pet Fee" = asciiLower "pet fee" ∧
    (⟨"Pet Fee", "pet", []⟩ : Fee) ≠ ⟨"pet fee", "pet", []⟩ := by
  refine ⟨by decide, by decide, by decide⟩

/-- C3 (amended): `_intelligent_merge` preserves exact-match (case-sensitive)
key uniqueness: if no two entries of any collection of the accumulator share
an identity key, and likewise for the partial, the merged record again has
pairwise-distinct identity keys in every collection. -/
theorem claim_C3_key_uniqueness_amended (A P : CommunityData)
    (hA : keysUnique A) (hP : keysUnique P) : keysUnique (intelligentMerge A P) := by
  by_cases hAe : A.isEmptyDict = true
  · have h1 : intelligentMerge A P = P := by
      unfold intelligentMerge
      rw [if_pos hAe]
    rw [h1]
    exact hP
  · by_cases hPe : P.isEmptyDict = true
    · have h1 : intelligentMerge A P = A := by
        unfold intelligentMerge
        rw [if_neg hAe, if_pos hPe]
      rw [h1]
      exact hA
    · rw [intelligentMerge_main A P (Bool.eq_false_iff.mpr hAe) (Bool.eq_false_iff.mpr hPe)]
      obtain ⟨hA1, hA2, hA3, hA4⟩ := hA
      obtain ⟨hP1, hP2, hP3, hP4⟩ := hP
      refine ⟨?_, ?_, ?_, ?_⟩
      · exact mergeField_keyed_nodup Fee.key A.fees P.fees hA1 hP1
      · exact mergeField_plans_nodup A.floor_plans P.floor_plans hA2 hP2
      · exact mergeField_keyed_nodup Amenity.amenity
          A.community_amenities P.community_amenities hA3 hP3
      · exact mergeField_keyed_nodup Page.key A.community_pages P.community_pages hA4 hP4

theorem claim_C3_witness : keysUnique (intelligentMerge c1acc c1part) :=
  claim_C3_key_uniqueness_amended c1acc c1part
    ⟨by decide, by decide, by decide, by decide⟩
    ⟨by decide, by decide, by decide, by decide⟩

/-! C6: fill-if-missing does not apply to fee entries. -/

/-- Existing fee with no recorded amount. -/
def c6accFee : Fee := ⟨"Pet Fee", "pet", []⟩

/-- Incoming fee with the same identity key and a populated amount. -/
def c6partFee : Fee := ⟨"Pet Fee", "pet", [("amount", .jnum 50)]⟩

/-- Accumulator whose pet fee lacks an amount. -/
def c6acc : CommunityData := ⟨some [c6accFee], none, none, none, [("name", .jstr "X")]⟩

/-- Partial whose matching pet fee carries `amount = 50`. -/
def c6part : CommunityData := ⟨some [c6partFee], none, none, none, [("url", .jstr "u")]⟩

/-- C6 (counterexample): when an incoming fee's identity key matches an
existing fee, the merge does NOT fill the existing fee's empty fields from
the incoming entry — the incoming fee is dropped wholesale, so the merged
pet fee still has no `amount` even though the incoming one carried `50`. -/
theorem claim_C6_counterexample :
    (intelligentMerge c6acc c6part).fees = some [⟨"Pet Fee", "pet", []⟩] ∧
    c6accFee ≠ c6partFee := by
  refine ⟨by decide, by decide⟩

/-- C6 (amended): in the fees branch, existing entries are never modified
(the merged fee list extends the accumulator's list), and an incoming fee
whose key already exists is skipped entirely — no per-field fill happens,
matching keys leave the accumulator's fee list exactly as it was. -/
theorem claim_C6_fee_skip_amended (A P : CommunityData) (cf nf : List Fee)
    (hA : A.isEmptyDict = false) (hP : P.isEmptyDict = false)
    (hAf : A.fees = some cf) (hPf : P.fees = some nf) :
    (∃ t, (intelligentMerge A P).fees = some (cf ++ t)) ∧
    ((∀ f ∈ nf, f.key ∈ cf.map Fee.key) → (intelligentMerge A P).fees = some cf) := by
  rw [intelligentMerge_main A P hA hP]
  dsimp only
  rw [hAf, hPf]
  constructor
  · exact ⟨_, rfl⟩
  · intro hall
    show mergeField mergeFees (some cf) (some nf) = some cf
    have hm : mergeFees cf nf = cf := mergeKeyed_all_mem Fee.key cf nf hall
    simp [mergeField, hm]

theorem claim_C6_witness : (intelligentMerge c6acc c6part).fees = some [c6accFee] :=
  (claim_C6_fee_skip_amended c6acc c6part [c6accFee] [c6partFee]
    (by decide) (by decide) rfl rfl).2 (by decide)

/-!
Validation bound and URL bookkeeping
(`validate_extraction_data`, the three `extract_*_from_url` tools, and the
`MasterOrchestratorAgent` instance state).  Specialist calls are injected
functions (`PydanticAI` agent runs); a Python exception is `Except.error`.
-/

/-- `ValidationReport` as the orchestration code consumes it. -/
structure ValidationReport where
  completeness_score : Rat
  critical_fields_missing : List String
  incomplete_fields : List String
  quality_issues : List String
  specific_feedback : List String
  retry_recommendations : List String
  validation_passed : Bool
  validation_summary : String
  deriving DecidableEq, Repr

/-- The report `validate_extraction_data` fabricates when the iteration cap is
reached (agents.py lines 978-993): validation is forced to pass. -/
def forcedPassReport (maxIter curIter : Nat) : ValidationReport :=
  { completeness_score := 80
    critical_fields_missing := []
    incomplete_fields := []
    quality_issues := []
    specific_feedback :=
      ["Max validation iterations (" ++ toString maxIter ++
        ") reached - accepting current data"]
    retry_recommendations := []
    validation_passed := true
    validation_summary :=
      "Validation completed after " ++ toString curIter ++
        " iterations. Max iteration limit reached - extraction complete." }

/-- Default of `orchestrate_extraction`'s `max_validation_iterations` argument. -/
def defaultMaxValidationIterations : Nat := 3

/-- `validate_extraction_data` (agents.py lines 953-1039): when
`current_iteration >= self.max_validation_iterations` the tool returns the
forced-accept report without consulting the validation agent; otherwise it
runs the injected validator. -/
def validateExtractionData (maxIter curIter : Nat)
    (validator : Unit → ValidationReport) : ValidationReport :=
  if maxIter ≤ curIter then forcedPassReport maxIter curIter else validator ()

/-- Driver for repeated validation rounds: starting at iteration `i`, call
`validate_extraction_data` and stop at the first passing report, else move to
the next iteration.  `reports i` is whatever the validation agent would
report at round `i`.  Termination needs no assumption on the validator:
the forced accept at `i >= maxIter` bounds the recursion. -/
def validationRoundsFrom (maxIter : Nat) (reports : Nat → ValidationReport) (i : Nat) : Nat :=
  if h : (validateExtractionData maxIter i (fun _ => reports i)).validation_passed = true then i
  else validationRoundsFrom maxIter reports (i + 1)
termination_by maxIter - i
decreasing_by
  have hlt : i < maxIter := by
    by_contra hge
    push_neg at hge
    apply h
    unfold validateExtractionData
    rw [if_pos hge]
    rfl
  omega

/-- Number of the round at which repeated validation stops, counting from
iteration 1 as `validate_extraction_data` is first called. -/
def validationRounds (maxIter : Nat) (reports : Nat → ValidationReport) : Nat :=
  validationRoundsFrom maxIter reports 1

theorem validationRoundsFrom_le (maxIter : Nat) (reports : Nat → ValidationReport) :
    ∀ n i, maxIter - i ≤ n → i ≤ maxIter → validationRoundsFrom maxIter reports i ≤ maxIter := by
  intro n
  induction n with
  | zero =>
    intro i h1 h2
    have hi : i = maxIter := by omega
    subst hi
    rw [validationRoundsFrom]
    rw [dif_pos (by unfold validateExtractionData; rw [if_pos (le_refl i)]; rfl)]
  | succ n ih =>
    intro i h1 h2
    rw [validationRoundsFrom]
    by_cases h : (validateExtractionData maxIter i (fun _ => reports i)).validation_passed = true
    · rw [dif_pos h]
      exact h2
    · rw [dif_neg h]
      have hlt : i < maxIter := by
        by_contra hge
        push_neg at hge
        apply h
        unfold validateExtractionData
        rw [if_pos hge]
        rfl
      exact ih (i + 1) (by omega) (by omega)

/-- C4: once the iteration counter reaches `max_validation_iterations`
(default 3), `validate_extraction_data` returns the forced-accept report —
with `validation_passed = true` and independent of the validator, which is
therefore not invoked — so repeated validation stops within 3 rounds for
every validator, including one that always fails. -/
theorem claim_C4_bounded_iteration :
    (∀ (validator : Unit → ValidationReport) (i : Nat),
      defaultMaxValidationIterations ≤ i →
        validateExtractionData defaultMaxValidationIterations i validator
            = forcedPassReport defaultMaxValidationIterations i ∧
          (forcedPassReport defaultMaxValidationIterations i).validation_passed = true) ∧
    (∀ reports : Nat → ValidationReport,
      validationRounds defaultMaxValidationIterations reports ≤ defaultMaxValidationIterations) := by
  constructor
  · intro validator i h3
    constructor
    · unfold validateExtractionData
      rw [if_pos h3]
    · rfl
  · intro reports
    exact validationRoundsFrom_le defaultMaxValidationIterations reports 3 1
      (by decide) (by decide)

/-- Validator stub that always reports failure. -/
def alwaysFailReport : ValidationReport :=
  ⟨0, ["name"], [], [], [], [], false, "always fail"⟩

theorem claim_C4_witness :
    validateExtractionData defaultMaxValidationIterations 3 (fun _ => alwaysFailReport)
        = forcedPassReport defaultMaxValidationIterations 3 ∧
      validationRounds defaultMaxValidationIterations (fun _ => alwaysFailReport)
        ≤ defaultMaxValidationIterations :=
  ⟨(claim_C4_bounded_iteration.1 (fun _ => alwaysFailReport) 3 (by decide)).1,
    claim_C4_bounded_iteration.2 (fun _ => alwaysFailReport)⟩

/-- Mutable state of a `MasterOrchestratorAgent` instance that the cited code
reads or writes: the `processed_urls` set (`__init__`, line 666) and the two
attributes `orchestrate_extraction` stores (lines 1176-1177).  The set is
modelled as a duplicate-free list in insertion order. -/
structure AgentState where
  processed_urls : List String
  target_data : List (String × JVal)
  max_validation_iterations : Option Nat
  deriving DecidableEq, Repr

/-- `MasterOrchestratorAgent.__init__` (agents.py line 666):
`self.processed_urls = set()` — created once per agent instance. -/
def masterOrchestratorInit : AgentState := ⟨[], [], none⟩

/-- The state writes `orchestrate_extraction` performs before running the
agent (agents.py lines 1176-1177): it stores `target_data` and
`max_validation_iterations` but does not touch `processed_urls`. -/
def orchestrateSetup (st : AgentState) (targetData : List (String × JVal))
    (maxIter : Nat) : AgentState :=
  { st with target_data := targetData, max_validation_iterations := some maxIter }

/-- `self.processed_urls.add(url)` on the list model of the set. -/
def insertUrl (processed : List String) (url : String) : List String :=
  if processed.contains url then processed else processed ++ [url]

/-- The empty record each tool returns when it skips an already-processed URL:
`CommunityInformation(name="", overview="", url=specific_url, fees=[],
floor_plans=[], community_amenities=[], community_pages=[])`. -/
def emptyCommunityFor (url : String) : CommunityData :=
  ⟨some [], some [], some [], some [],
   [("name", .jstr ""), ("overview", .jstr ""), ("url", .jstr url)]⟩

/-- The record `extract_floor_plans_from_url` builds around the plans the
specialist found (agents.py lines 798-806). -/
def communityFromPlans (url : String) (plans : List FloorPlan) : CommunityData :=
  ⟨some [], some plans, some [], some [],
   [("name", .jstr ""), ("overview", .jstr ""), ("url", .jstr url)]⟩

/-- The record `extract_fees_from_url` builds around the fees the specialist
found (agents.py lines 894-902). -/
def communityFromFees (url : String) (fees : List Fee) : CommunityData :=
  ⟨some fees, some [], some [], some [],
   [("name", .jstr ""), ("overview", .jstr ""), ("url", .jstr url)]⟩

/-- `extract_floor_plans_from_url` (agents.py lines 760-810): skip visited
URLs unless `force_rescrape`; otherwise run the specialist and mark the URL
processed.  `FloorPlanSpecialistAgent.extract_floor_plans` catches every
exception and returns an error result with `floor_plans_found=[]`
(agents.py lines 345-356), so the tool always reaches the marking step. -/
def extractFloorPlansFromUrl (st : AgentState) (url : String) (force : Bool)
    (specialistRun : String → Except String (List FloorPlan)) :
    CommunityData × AgentState :=
  if !force && st.processed_urls.contains url then (emptyCommunityFor url, st)
  else
    let plans :=
      match specialistRun url with
      | .ok ps => ps
      | .error _ => []
    (communityFromPlans url plans,
     { st with processed_urls := insertUrl st.processed_urls url })

/-- `extract_fees_from_url` (agents.py lines 856-906): skip visited URLs
unless `force_rescrape`; otherwise run the fee specialist — which re-raises
its failures (agents.py lines 547-549) — and only after it returns mark the
URL processed.  A raising specialist therefore leaves `processed_urls`
unchanged. -/
def extractFeesFromUrl (st : AgentState) (url : String) (force : Bool)
    (specialistRun : String → Except String (List Fee)) :
    Except String CommunityData × AgentState :=
  if !force && st.processed_urls.contains url then (.ok (emptyCommunityFor url), st)
  else
    match specialistRun url with
    | .error e => (.error e, st)
    | .ok fees =>
      (.ok (communityFromFees url fees),
       { st with processed_urls := insertUrl st.processed_urls url })

/-- `extract_community_overview_from_url` (agents.py lines 812-854): same
shape as the fee tool; `extract_community_info` re-raises failures
(agents.py lines 455-458) before the URL is marked. -/
def extractCommunityOverviewFromUrl (st : AgentState) (url : String) (force : Bool)
    (specialistRun : String → Except String CommunityData) :
    Except String CommunityData × AgentState :=
  if !force && st.processed_urls.contains url then (.ok (emptyCommunityFor url), st)
  else
    match specialistRun url with
    | .error e => (.error e, st)
    | .ok info =>
      (.ok info,
       { st with processed_urls := insertUrl st.processed_urls url })

theorem insertUrl_contains_self (processed : List String) (url : String) :
    (insertUrl processed url).contains url = true := by
  unfold insertUrl
  by_cases h : processed.contains url = true
  · rw [if_pos h]
    exact h
  · rw [if_neg h]
    simp

theorem insertUrl_contains_mono (processed : List String) (url u : String)
    (h : processed.contains u = true) : (insertUrl processed url).contains u = true := by
  unfold insertUrl
  by_cases hc : processed.contains url = true
  · rw [if_pos hc]
    exact h
  · rw [if_neg hc]
    simp at h ⊢
    exact Or.inl h

/-- C5 (counterexample): a URL dispatched for fee extraction whose specialist
call raises is NOT marked visited — the exception propagates before
`processed_urls.add`, leaving the set empty. -/
theorem claim_C5_counterexample :
    (extractFeesFromUrl masterOrchestratorInit "https://example.com/fees" false
        (fun _ => .error "ExtractionError")).1 = .error "ExtractionError" ∧
    (extractFeesFromUrl masterOrchestratorInit "https://example.com/fees" false
        (fun _ => .error "ExtractionError")).2.processed_urls = [] :=
  ⟨rfl, rfl⟩

/-- C5 (amended): a non-forced call on a visited URL never invokes the
capability and leaves the state unchanged, for all three extraction tools
(the shared set makes the skip apply across categories — a URL a fee
dispatch marked is skipped by a later floor-plan dispatch, as the last
conjunct shows on the composed calls); a floor-plan dispatch always ends
with the URL marked visited (its specialist swallows failures); a fee or
community-overview dispatch marks the URL only when its specialist call
returns — on a raising specialist the state is unchanged, so the URL stays
unvisited. -/
theorem claim_C5_url_visitation_amended (st : AgentState) (url : String)
    (fSpec : String → Except String (List Fee))
    (pSpec : String → Except String (List FloorPlan))
    (oSpec : String → Except String CommunityData) :
    (st.processed_urls.contains url = true →
      extractFeesFromUrl st url false fSpec = (.ok (emptyCommunityFor url), st) ∧
      extractFloorPlansFromUrl st url false pSpec = (emptyCommunityFor url, st) ∧
      extractCommunityOverviewFromUrl st url false oSpec
        = (.ok (emptyCommunityFor url), st)) ∧
    ((extractFloorPlansFromUrl st url false pSpec).2.processed_urls.contains url = true) ∧
    (∀ e, fSpec url = .error e → (extractFeesFromUrl st url false fSpec).2 = st) ∧
    (∀ fees, fSpec url = .ok fees →
      (extractFeesFromUrl st url false fSpec).2.processed_urls.contains url = true) ∧
    (∀ e, oSpec url = .error e →
      (extractCommunityOverviewFromUrl st url false oSpec).2 = st) ∧
    (∀ info, oSpec url = .ok info →
      (extractCommunityOverviewFromUrl st url false oSpec).2.processed_urls.contains url
        = true) ∧
    (st.processed_urls.contains url = false → ∀ fees, fSpec url = .ok fees →
      extractFloorPlansFromUrl (extractFeesFromUrl st url false fSpec).2 url false pSpec
        = (emptyCommunityFor url, (extractFeesFromUrl st url false fSpec).2)) := by
  refine ⟨?_, ?_, ?_, ?_, ?_, ?_, ?_⟩
  · intro h
    refine ⟨?_, ?_, ?_⟩
    · unfold extractFeesFromUrl
      rw [if_pos (by rw [h]; rfl)]
    · unfold extractFloorPlansFromUrl
      rw [if_pos (by rw [h]; rfl)]
    · unfold extractCommunityOverviewFromUrl
      rw [if_pos (by rw [h]; rfl)]
  · unfold extractFloorPlansFromUrl
    by_cases h : st.processed_urls.contains url = true
    · rw [if_pos (by rw [h]; rfl)]
      exact h
    · rw [if_neg (by rw [Bool.not_eq_true] at h; rw [h]; simp)]
      exact insertUrl_contains_self st.processed_urls url
  · intro e he
    unfold extractFeesFromUrl
    by_cases h : st.processed_urls.contains url = true
    · rw [if_pos (by rw [h]; rfl)]
    · rw [if_neg (by rw [Bool.not_eq_true] at h; rw [h]; simp), he]
  · intro fees hf
    unfold extractFeesFromUrl
    by_cases h : st.processed_urls.contains url = true
    · rw [if_pos (by rw [h]; rfl)]
      exact h
    · rw [if_neg (by rw [Bool.not_eq_true] at h; rw [h]; simp), hf]
      exact insertUrl_contains_self st.processed_urls url
  · intro e he
    unfold extractCommunityOverviewFromUrl
    by_cases h : st.processed_urls.contains url = true
    · rw [if_pos (by rw [h]; rfl)]
    · rw [if_neg (by rw [Bool.not_eq_true] at h; rw [h]; simp), he]
  · intro info ho
    unfold extractCommunityOverviewFromUrl
    by_cases h : st.processed_urls.contains url = true
    · rw [if_pos (by rw [h]; rfl)]
      exact h
    · rw [if_neg (by rw [Bool.not_eq_true] at h; rw [h]; simp), ho]
      exact insertUrl_contains_self st.processed_urls url
  · intro hnc fees hf
    have hstep : (extractFeesFromUrl st url false fSpec).2
        = { st with processed_urls := insertUrl st.processed_urls url } := by
      unfold extractFeesFromUrl
      rw [if_neg (by rw [hnc]; simp), hf]
    rw [hstep]
    unfold extractFloorPlansFromUrl
    rw [if_pos (by
      simp only [Bool.not_false, Bool.true_and]
      exact insertUrl_contains_self st.processed_urls url)]

/-- Agent state that has already processed the fee URL. -/
def c5visited : AgentState := ⟨["https://example.com/fees"], [], none⟩

/-- Fee specialist stub that succeeds with one fee. -/
def c5okFeeSpec : String → Except String (List Fee) :=
  fun _ => .ok [⟨"Application Fee", "application", []⟩]

/-- Floor-plan specialist stub that succeeds with one plan. -/
def c5okPlanSpec : String → Except String (List FloorPlan) :=
  fun _ => .ok [planPriceOnly]

/-- Community-overview specialist stub that succeeds with an extracted record. -/
def c5okOverviewSpec : String → Except String CommunityData :=
  fun _ => .ok (emptyCommunityFor "https://example.com/about")

theorem claim_C5_witness :
    extractFeesFromUrl c5visited "https://example.com/fees" false c5okFeeSpec
        = (.ok (emptyCommunityFor "https://example.com/fees"), c5visited) ∧
      (extractFeesFromUrl masterOrchestratorInit "https://example.com/fees" false
        c5okFeeSpec).2.processed_urls.contains "https://example.com/fees" = true ∧
      (extractCommunityOverviewFromUrl masterOrchestratorInit "https://example.com/fees"
        false c5okOverviewSpec).2.processed_urls.contains "https://example.com/fees"
        = true ∧
      extractFloorPlansFromUrl
          (extractFeesFromUrl masterOrchestratorInit "https://example.com/fees" false
            c5okFeeSpec).2 "https://example.com/fees" false c5okPlanSpec
        = (emptyCommunityFor "https://example.com/fees",
           (extractFeesFromUrl masterOrchestratorInit "https://example.com/fees" false
             c5okFeeSpec).2) :=
  ⟨((claim_C5_url_visitation_amended c5visited "https://example.com/fees"
      c5okFeeSpec c5okPlanSpec c5okOverviewSpec).1 (by decide)).1,
   (claim_C5_url_visitation_amended masterOrchestratorInit "https://example.com/fees"
      c5okFeeSpec c5okPlanSpec c5okOverviewSpec).2.2.2.1
     [⟨"Application Fee", "application", []⟩] rfl,
   (claim_C5_url_visitation_amended masterOrchestratorInit "https://example.com/fees"
      c5okFeeSpec c5okPlanSpec c5okOverviewSpec).2.2.2.2.2.1
     (emptyCommunityFor "https://example.com/about") rfl,
   (claim_C5_url_visitation_amended masterOrchestratorInit "https://example.com/fees"
      c5okFeeSpec c5okPlanSpec c5okOverviewSpec).2.2.2.2.2.2 (by decide)
     [⟨"Application Fee", "application", []⟩] rfl⟩

/-! C9: scoping of the processed-URLs set. -/

/-- URL processed during the first orchestration run. -/
def c9url : String := "https://example.com/fees"

/-- Agent state after run 1 dispatched and extracted `c9url`. -/
def c9afterRun1 : AgentState :=
  (extractFeesFromUrl masterOrchestratorInit c9url false c5okFeeSpec).2

/-- Agent state at the start of a second `orchestrate_extraction` call on the
same instance — the per-run setup stores target data and the iteration cap
but does not reset `processed_urls`. -/
def c9run2Start : AgentState := orchestrateSetup c9afterRun1 [] 3

/-- C9 (counterexample): a URL marked visited during one call to
`orchestrate_extraction` IS still treated as already-visited by a subsequent
call on the same agent instance: the second run's fee tool skips it and
returns the empty record without invoking the specialist. -/
theorem claim_C9_counterexample :
    c9run2Start.processed_urls = [c9url] ∧
    extractFeesFromUrl c9run2Start c9url false c5okFeeSpec
      = (.ok (emptyCommunityFor c9url), c9run2Start) :=
  ⟨rfl, rfl⟩

/-- C9 (amended): the processed-URLs set is scoped to the agent INSTANCE, not
to one run — `__init__` creates it empty, `orchestrate_extraction`'s setup
leaves it untouched across runs, and the extraction tools only ever grow it
(a URL once contained stays contained), so it never shrinks. -/
theorem claim_C9_url_set_scope_amended (st : AgentState)
    (targetData : List (String × JVal)) (maxIter : Nat) (url u : String) (force : Bool)
    (fSpec : String → Except String (List Fee))
    (pSpec : String → Except String (List FloorPlan)) :
    masterOrchestratorInit.processed_urls = [] ∧
    (orchestrateSetup st targetData maxIter).processed_urls = st.processed_urls ∧
    (st.processed_urls.contains u = true →
      (extractFeesFromUrl st url force fSpec).2.processed_urls.contains u = true ∧
      (extractFloorPlansFromUrl st url force pSpec).2.processed_urls.contains u = true) := by
  refine ⟨rfl, rfl, ?_⟩
  intro h
  constructor
  · unfold extractFeesFromUrl
    by_cases hc : (!force && st.processed_urls.contains url) = true
    · rw [if_pos hc]
      exact h
    · rw [if_neg hc]
      cases hs : fSpec url with
      | error e => exact h
      | ok fees => exact insertUrl_contains_mono st.processed_urls url u h
  · unfold extractFloorPlansFromUrl
    by_cases hc : (!force && st.processed_urls.contains url) = true
    · rw [if_pos hc]
      exact h
    · rw [if_neg hc]
      exact insertUrl_contains_mono st.processed_urls url u h

theorem claim_C9_witness :
    (orchestrateSetup c9afterRun1 [] 3).processed_urls = c9afterRun1.processed_urls ∧
    (extractFeesFromUrl c9afterRun1 "https://example.com/other" false
      c5okFeeSpec).2.processed_urls.contains c9url = true :=
  ⟨(claim_C9_url_set_scope_amended c9afterRun1 [] 3 "https://example.com/other" c9url
      false c5okFeeSpec c5okPlanSpec).2.1,
   ((claim_C9_url_set_scope_amended c9afterRun1 [] 3 "https://example.com/other" c9url
      false c5okFeeSpec c5okPlanSpec).2.2 (by decide)).1⟩

/-!
Navigation categorization — the `discover_navigation` tool
(agents.py lines 692-758).
-/

/-- Navigation link dict (`'text'`/`'url'` are what categorization reads;
`extra` carries `description`, `selector_type`, ...). -/
structure NavLink where
  url : String
  text : String
  extra : List (String × String)
  deriving DecidableEq, Repr

/-- Category a candidate URL is filed under. -/
inductive NavCategory where
  | floor_plan
  | fee
  | general
  deriving DecidableEq, Repr

/-- Substring test, Python's `keyword in url` (kernel-computable). -/
def strContains (s pat : String) : Bool :=
  (List.range (s.data.length + 1)).any (fun i => pat.data.isPrefixOf (s.data.drop i))

/-- Floor-plan keyword list of `discover_navigation` (agents.py line 728). -/
def floorPlanKeywords : List String :=
  ["floorplan", "floor-plan", "units", "layouts", "apartment", "availability"]

/-- Fee/pricing keyword list of `discover_navigation` (agents.py line 732). -/
def feeKeywords : List String :=
  ["pricing", "fees", "apply", "application", "lease", "rent"]

/-- `any(keyword in url or keyword in text for keyword in ...)`. -/
def matchesKeywords (keywords : List String) (url text : String) : Bool :=
  keywords.any (fun k => strContains url k || strContains text k)

/-- Per-link if/elif/else of `discover_navigation` (agents.py lines 722-736);
`url`/`text` are lower-cased first (`link['url'].lower()`, modelled for the
ASCII strings this code compares). -/
def categorizeNavLink (link : NavLink) : NavCategory :=
  let url := asciiLower link.url
  let text := asciiLower link.text
  if matchesKeywords floorPlanKeywords url text then .floor_plan
  else if matchesKeywords feeKeywords url text then .fee
  else .general

/-- The loop of `discover_navigation` filing each link into
`floor_plan_urls` / `fee_urls` / `community_urls` in order. -/
def discoverNavigationPartition (navLinks : List NavLink) :
    List NavLink × List NavLink × List NavLink :=
  navLinks.foldl
    (fun acc link =>
      match categorizeNavLink link with
      | .floor_plan => (acc.1 ++ [link], acc.2.1, acc.2.2)
      | .fee => (acc.1, acc.2.1 ++ [link], acc.2.2)
      | .general => (acc.1, acc.2.1, acc.2.2 ++ [link]))
    ([], [], [])

theorem discoverNavigationPartition_aux (links : List NavLink)
    (acc : List NavLink × List NavLink × List NavLink) :
    links.foldl
      (fun acc link =>
        match categorizeNavLink link with
        | .floor_plan => (acc.1 ++ [link], acc.2.1, acc.2.2)
        | .fee => (acc.1, acc.2.1 ++ [link], acc.2.2)
        | .general => (acc.1, acc.2.1, acc.2.2 ++ [link]))
      acc =
    (acc.1 ++ links.filter (fun l => categorizeNavLink l == NavCategory.floor_plan),
     acc.2.1 ++ links.filter (fun l => categorizeNavLink l == NavCategory.fee),
     acc.2.2 ++ links.filter (fun l => categorizeNavLink l == NavCategory.general)) := by
  induction links generalizing acc with
  | nil => simp
  | cons l ls ih =>
    rw [List.foldl_cons]
    cases hc : categorizeNavLink l with
    | floor_plan => simp [hc, ih]
    | fee => simp [hc, ih]
    | general => simp [hc, ih]

theorem discoverNavigationPartition_eq_filter (links : List NavLink) :
    discoverNavigationPartition links =
      (links.filter (fun l => categorizeNavLink l == NavCategory.floor_plan),
       links.filter (fun l => categorizeNavLink l == NavCategory.fee),
       links.filter (fun l => categorizeNavLink l == NavCategory.general)) := by
  unfold discoverNavigationPartition
  rw [discoverNavigationPartition_aux]
  simp

/-- C10: `discover_navigation` tags a candidate `floor_plan` when its
lower-cased URL or text matches a floor-plan/unit/availability keyword,
`fee` when it matches a pricing/application/lease keyword and no floor-plan
keyword, `general` otherwise; a candidate matching both keyword sets is
tagged `floor_plan` (the floor-plan test runs first), and the discovered
lists are exactly the links of each category in input order. -/
theorem claim_C10_navigation_categorization (link : NavLink) (links : List NavLink) :
    (matchesKeywords floorPlanKeywords (asciiLower link.url) (asciiLower link.text) = true →
      categorizeNavLink link = .floor_plan) ∧
    (matchesKeywords floorPlanKeywords (asciiLower link.url) (asciiLower link.text) = false →
      matchesKeywords feeKeywords (asciiLower link.url) (asciiLower link.text) = true →
      categorizeNavLink link = .fee) ∧
    (matchesKeywords floorPlanKeywords (asciiLower link.url) (asciiLower link.text) = false →
      matchesKeywords feeKeywords (asciiLower link.url) (asciiLower link.text) = false →
      categorizeNavLink link = .general) ∧
    (matchesKeywords floorPlanKeywords (asciiLower link.url) (asciiLower link.text) = true →
      matchesKeywords feeKeywords (asciiLower link.url) (asciiLower link.text) = true →
      (discoverNavigationPartition (link :: links)).1 =
        link :: (discoverNavigationPartition links).1 ∧
      (discoverNavigationPartition (link :: links)).2.1 =
        (discoverNavigationPartition links).2.1) := by
  refine ⟨?_, ?_, ?_, ?_⟩
  · intro h
    simp [categorizeNavLink, h]
  · intro h1 h2
    simp [categorizeNavLink, h1, h2]
  · intro h1 h2
    simp [categorizeNavLink, h1, h2]
  · intro h1 _
    have hcat : categorizeNavLink link = .floor_plan := by simp [categorizeNavLink, h1]
    rw [discoverNavigationPartition_eq_filter, discoverNavigationPartition_eq_filter]
    constructor
    · simp [hcat]
    · simp [hcat]

/-- Candidate link whose URL matches both keyword sets
(`apartment` and `pricing`). -/
def c10bothLink : NavLink :=
  ⟨"https://example.com/apartment-pricing", "Apartment Pricing", []⟩

theorem claim_C10_witness :
    categorizeNavLink c10bothLink = .floor_plan ∧
    (discoverNavigationPartition [c10bothLink]).1 = [c10bothLink] ∧
    (discoverNavigationPartition [c10bothLink]).2.1 = [] :=
  ⟨(claim_C10_navigation_categorization c10bothLink []).1 (by decide),
   ((claim_C10_navigation_categorization c10bothLink []).2.2.2 (by decide) (by decide)).1,
   ((claim_C10_navigation_categorization c10bothLink []).2.2.2 (by decide) (by decide)).2⟩

/-!
Challenge-page handling — `DjangoWebScraper` (src/utils/web_scraper.py).

The rendered page is embedded as a parsed element tree (`BeautifulSoup` of
the HTML Playwright returned; the browser engine itself is the opaque
collaborator).  A document is the soup's top-level node list.
-/

mutual
/-- Parsed HTML node: an element with tag, attributes (the `class`/`id`
attributes carried as their raw string values) and children, or a text node. -/
inductive HNode where
  | elem (tag : String) (attrs : List (String × String)) (children : HNodes)
  | htext (s : String)
/-- List of sibling nodes (spelled out so all recursions stay structural). -/
inductive HNodes where
  | nil
  | cons (head : HNode) (tail : HNodes)
end

/-- First attribute with the given name (`element.get(name)`). -/
def getAttr : List (String × String) → String → Option String
  | [], _ => none
  | (k, v) :: rest, name => if k == name then some v else getAttr rest name

/-- ASCII whitespace trim of both ends (Python `str.strip()`). -/
def strTrim (s : String) : String :=
  String.mk (((s.data.dropWhile Char.isWhitespace).reverse.dropWhile
    Char.isWhitespace).reverse)

mutual
/-- `soup.get_text()`: concatenation of all text descendants. -/
def getTextN : HNode → String
  | .htext s => s
  | .elem _ _ cs => getTextL cs
def getTextL : HNodes → String
  | .nil => ""
  | .cons n rest => getTextN n ++ getTextL rest
end

mutual
/-- `element.get_text(strip=True)`: each string stripped, empties dropped,
joined with the empty separator. -/
def stripTextN : HNode → String
  | .htext s => strTrim s
  | .elem _ _ cs => stripTextL cs
def stripTextL : HNodes → String
  | .nil => ""
  | .cons n rest => stripTextN n ++ stripTextL rest
end

mutual
/-- Stripped non-empty strings of a subtree in document order
(for `get_text(separator='\n', strip=True)`). -/
def stripStringsN : HNode → List String
  | .htext s => if (strTrim s).isEmpty then [] else [strTrim s]
  | .elem _ _ cs => stripStringsL cs
def stripStringsL : HNodes → List String
  | .nil => []
  | .cons n rest => stripStringsN n ++ stripStringsL rest
end

/-- `soup.get_text(separator='\n', strip=True)`. -/
def getTextLines (doc : HNodes) : String := String.intercalate "\n" (stripStringsL doc)

mutual
/-- First `<title>` element in document order (`soup.title`). -/
def findTitleN : HNode → Option HNode
  | .htext _ => none
  | .elem tag attrs cs =>
    if tag == "title" then some (.elem tag attrs cs) else findTitleL cs
def findTitleL : HNodes → Option HNode
  | .nil => none
  | .cons n rest =>
    match findTitleN n with
    | some t => some t
    | none => findTitleL rest
end

/-- `soup.title.string`: the title's sole text child, if that is its shape. -/
def soupTitleString (doc : HNodes) : Option String :=
  match findTitleL doc with
  | some (.elem _ _ (.cons (.htext s) .nil)) => some s
  | _ => none

mutual
/-- CSS `iframe[src*="recaptcha"], iframe[src*="hcaptcha"]` over a subtree. -/
def hasCaptchaIframeN : HNode → Bool
  | .htext _ => false
  | .elem tag attrs cs =>
    (tag == "iframe" &&
      (match getAttr attrs "src" with
       | some v => strContains v "recaptcha" || strContains v "hcaptcha"
       | none => false)) ||
    hasCaptchaIframeL cs
def hasCaptchaIframeL : HNodes → Bool
  | .nil => false
  | .cons n rest => hasCaptchaIframeN n || hasCaptchaIframeL rest
end

/-- Keyword list of `_detect_captcha` (web_scraper.py lines 182-187). -/
def captchaKeywords : List String :=
  ["captcha", "are you a robot", "verify you are human",
   "verifying you are human", "checking your browser",
   "review the security of your connection",
   "site connection is secure", "enable javascript and cookies"]

/-- `DjangoWebScraper._detect_captcha` (web_scraper.py lines 168-198):
challenge titles, challenge keywords in the page text, or a
reCAPTCHA/hCaptcha iframe. -/
def detectCaptcha (doc : HNodes) : Bool :=
  let text := asciiLower (getTextL doc)
  let title := ((soupTitleString doc).map asciiLower).getD ""
  if strContains title "just a moment..." || strContains title "checking your browser"
    then true
  else if captchaKeywords.any (fun k => strContains text k) then true
  else if hasCaptchaIframeL doc then true
  else false

/-- Kernel-computable `pre.isPrefixOf s` on strings (Python `startswith`). -/
def strStartsWith (s pre : String) : Bool := pre.data.isPrefixOf s.data

/-- Whitespace-split of a multi-valued attribute (BeautifulSoup's
`element.get('class', [])` token list). -/
def splitTokensAux : List Char → List Char → List String
  | [], acc => if acc.isEmpty then [] else [String.mk acc.reverse]
  | c :: rest, acc =>
    if c.isWhitespace then
      if acc.isEmpty then splitTokensAux rest []
      else String.mk acc.reverse :: splitTokensAux rest []
    else splitTokensAux rest (c :: acc)

def splitTokens (s : String) : List String := splitTokensAux s.data []

/-- Python truthiness of `element.get(attr)`. -/
def truthyAttr : Option String → Bool
  | some s => !s.isEmpty
  | none => false

/-- Tags `clean_html` decomposes outright (web_scraper.py lines 259-263). -/
def junkTags : List String :=
  ["script", "style", "meta", "link", "noscript", "svg", "path",
   "nav", "aside", "form", "input", "select", "textarea", "embed", "object"]

def classTokens (attrs : List (String × String)) : List String :=
  splitTokens ((getAttr attrs "class").getD "")

/-- Functional-button test of `clean_html` (web_scraper.py lines 274-285). -/
def isFunctionalButton (attrs : List (String × String)) : Bool :=
  let classes := classTokens attrs
  classes.contains "btn" || classes.contains "primary" || classes.contains "secondary" ||
    attrs.any (fun kv => strStartsWith kv.1 "data-") ||
    (match getAttr attrs "type" with
     | some t => t == "submit" || t == "button"
     | none => false)

/-- Substrings of the `[class*="..."]` junk selectors (lines 294-298). -/
def junkClassSubstrings : List String :=
  ["cookie", "popup", "ad", "advertisement", "banner", "navigation", "menu",
   "sidebar", "nav"]

/-- Substrings of the `[id*="..."]` junk selectors (lines 299-300). -/
def junkIdSubstrings : List String :=
  ["cookie", "popup", "ad", "navigation", "menu", "sidebar"]

/-- Whether an element matches the junk/modal selector lists
(web_scraper.py lines 294-306). -/
def matchesJunkSelector (attrs : List (String × String)) : Bool :=
  let cv := (getAttr attrs "class").getD ""
  let iv := (getAttr attrs "id").getD ""
  let ct := splitTokens cv
  junkClassSubstrings.any (fun p => strContains cv p) ||
    junkIdSubstrings.any (fun p => strContains iv p) ||
    ct.contains "modal-backdrop" || ct.contains "modal-overlay" ||
    strContains cv "modal-container" || strContains cv "modal-dialog" ||
    strContains iv "modal-"

/-- Interactive elements exempt from junk-selector removal (lines 313-319). -/
def isInteractiveKeep (tag : String) (attrs : List (String × String)) : Bool :=
  (tag == "a" || tag == "button") &&
    ((classTokens attrs).contains "btn" ||
      truthyAttr (getAttr attrs "data-url") || truthyAttr (getAttr attrs "href"))

/-- Attributes `clean_html` preserves (web_scraper.py lines 329-340). -/
def essentialAttrs : List String :=
  ["href", "src", "alt", "title", "role", "tabindex",
   "aria-label", "aria-haspopup", "aria-expanded"]

def keepAttr (name : String) : Bool :=
  essentialAttrs.contains name || strStartsWith name "data-" ||
    strStartsWith name "aria-"

def cleanAttrs (attrs : List (String × String)) : List (String × String) :=
  attrs.filter (fun kv => keepAttr kv.1)

mutual
/-- `DjangoWebScraper.clean_html` (web_scraper.py lines 253-358).  The four
sequential passes (decompose junk tags, decompose non-functional buttons,
decompose junk-selector matches unless interactive, strip non-essential
attributes) each depend only on an element's own tag and attributes, so they
fuse into one traversal: `none` means the element was decomposed. -/
def cleanNode : HNode → Option HNode
  | .htext s => some (.htext s)
  | .elem tag attrs cs =>
    if junkTags.contains tag then none
    else if tag == "button" && !isFunctionalButton attrs then none
    else if matchesJunkSelector attrs && !isInteractiveKeep tag attrs then none
    else some (.elem tag (cleanAttrs attrs) (cleanNodes cs))
def cleanNodes : HNodes → HNodes
  | .nil => .nil
  | .cons n rest =>
    match cleanNode n with
    | some n' => .cons n' (cleanNodes rest)
    | none => cleanNodes rest
end

def nodeTag : HNode → String
  | .elem t _ _ => t
  | .htext _ => ""

def nodeAttrs : HNode → List (String × String)
  | .elem _ a _ => a
  | .htext _ => []

mutual
/-- All element nodes of a subtree in document order (`soup.find_all()`). -/
def allElemsN : HNode → List HNode
  | .htext _ => []
  | .elem tag attrs cs => .elem tag attrs cs :: allElemsL cs
def allElemsL : HNodes → List HNode
  | .nil => []
  | .cons n rest => allElemsN n ++ allElemsL rest
end

/-- Target tags of `extract_meaningful_elements` (web_scraper.py 367-371). -/
def targetTags : List String :=
  ["a", "div", "section", "article", "main", "h1", "h2", "h3", "h4", "h5", "h6",
   "p", "span", "table", "tr", "td", "th", "ul", "ol", "li", "blockquote",
   "pre", "code", "strong", "em", "b", "i", "img"]

/-- Meaningful-content filter (web_scraper.py lines 391-403): an `img` with a
`src`, or any element whose stripped text is longer than one character. -/
def isMeaningful (e : HNode) : Bool :=
  if nodeTag e == "img" && truthyAttr (getAttr (nodeAttrs e) "src") then true
  else decide (1 < (strTrim (stripTextN e)).length)

mutual
/-- Content equality of nodes, as BeautifulSoup's `Tag.__eq__` compares
name, attributes and contents. -/
def beqN : HNode → HNode → Bool
  | .htext s, .htext t => s == t
  | .elem t1 a1 c1, .elem t2 a2 c2 => t1 == t2 && a1 == a2 && beqL c1 c2
  | .htext _, .elem _ _ _ => false
  | .elem _ _ _, .htext _ => false
def beqL : HNodes → HNodes → Bool
  | .nil, .nil => true
  | .cons n r, .cons m s => beqN n m && beqL r s
  | .nil, .cons _ _ => false
  | .cons _ _, .nil => false
end

mutual
/-- Whether `a`'s subtree properly contains a node equal to `b`
(`other_element in element.parents` seen from the ancestor's side). -/
def subtreeHasN : HNode → HNode → Bool
  | .htext _, _ => false
  | .elem _ _ cs, b => subtreeHasL cs b
def subtreeHasL : HNodes → HNode → Bool
  | .nil, _ => false
  | .cons n rest, b => beqN n b || subtreeHasN n b || subtreeHasL rest b
end

/-- `_remove_nested_elements` (web_scraper.py lines 419-447): keep `img`s
unconditionally, drop any element that sits inside another listed element. -/
def removeNested (lst : List HNode) : List HNode :=
  lst.filter (fun e =>
    nodeTag e == "img" ||
      !(lst.any (fun o => !(beqN o e) && subtreeHasN o e)))

/-- `extract_meaningful_elements` (web_scraper.py lines 360-417). -/
def extractMeaningfulElements (doc : HNodes) : List HNode :=
  let all := allElemsL doc
  let elements := all.filter (fun e => targetTags.contains (nodeTag e))
  let elements :=
    if elements.isEmpty then
      all.filter (fun e =>
        !(["html", "head", "body", "script", "style", "meta", "link"].contains
            (nodeTag e)) &&
          !(stripTextN e).isEmpty)
    else elements
  removeNested (elements.filter isMeaningful)

def headingLevel : String → Option Nat
  | "h1" => some 1
  | "h2" => some 2
  | "h3" => some 3
  | "h4" => some 4
  | "h5" => some 5
  | "h6" => some 6
  | _ => none

def repeatChar (c : Char) (n : Nat) : String := String.mk (List.replicate n c)

/-- `_resolve_url` (web_scraper.py lines 846-869) around an injected
`urllib.parse.urljoin`+validity check (`urljoin` is the stdlib collaborator;
`none` stands for its parse-validation failure). -/
def resolveUrlModel (urljoin : String → String → Option String)
    (href base : String) : Option String :=
  if href.isEmpty || strStartsWith href "javascript:" || strStartsWith href "mailto:" ||
      strStartsWith href "tel:" then none
  else if strStartsWith href "#" then none
  else urljoin base href

/-- Markdown lines one extracted element contributes
(web_scraper.py lines 1020-1046). -/
def mdElementParts (urljoin : String → String → Option String) (pageUrl : String)
    (e : HNode) : List String :=
  if nodeTag e == "img" then
    match getAttr (nodeAttrs e) "src" with
    | some src =>
      if src.isEmpty then []
      else
        let imgUrl :=
          match resolveUrlModel urljoin src pageUrl with
          | some u => u
          | none => "None"
        let alt := (getAttr (nodeAttrs e) "alt").getD ""
        ["IMAGE: " ++ imgUrl ++ (if alt.isEmpty then "" else " (alt: " ++ alt ++ ")"), ""]
    | none => []
  else
    let text := stripTextN e
    if text.isEmpty then []
    else
      let line :=
        match headingLevel (nodeTag e) with
        | some lvl => repeatChar '#' lvl ++ " " ++ text ++ "\n"
        | none =>
          if nodeTag e == "a" && truthyAttr (getAttr (nodeAttrs e) "href") then
            "[" ++ text ++ "](" ++ (getAttr (nodeAttrs e) "href").getD "" ++ ")"
          else if nodeTag e == "li" then "- " ++ text
          else text
      [line, ""]

/-- `DjangoWebScraper.scrape_url_to_content` (web_scraper.py lines 959-1066)
in the `return_format='markdown'`, `validate_first=False` configuration every
agent tool uses; `doc` is the soup `fetch_and_render` parsed from the page
Playwright (the opaque browser collaborator) rendered.  The return type is
the Python signature's `Optional[str]`: there is no challenge-error outcome,
and `_detect_captcha` is invoked nowhere in this pipeline. -/
def scrapeUrlToContent (doc : HNodes) (pageUrl : String)
    (urljoin : String → String → Option String) : Option String :=
  let cleaned := cleanNodes doc
  let uniqueElements := extractMeaningfulElements cleaned
  if uniqueElements.isEmpty then
    let textContent := getTextLines cleaned
    if !textContent.isEmpty && 100 < textContent.length then
      some ("# Extracted Content from " ++ pageUrl ++ "\n\n" ++ textContent)
    else none
  else
    some (String.intercalate "\n"
      (("# Content from " ++ pageUrl ++ "\n") ::
        uniqueElements.foldr (fun e acc => mdElementParts urljoin pageUrl e ++ acc) []))

/-- Rendered Cloudflare-style challenge page: title `Just a moment...` and
browser-check body text. -/
def challengePage : HNodes :=
  .cons (.elem "html" []
    (.cons (.elem "head" []
      (.cons (.elem "title" [] (.cons (.htext "Just a moment...") .nil)) .nil))
    (.cons (.elem "body" []
      (.cons (.elem "div" [("class", "main-wrapper")]
        (.cons (.elem "h1" [] (.cons (.htext "example.com") .nil))
        (.cons (.elem "p" []
          (.cons (.htext "Checking your browser before accessing example.com.") .nil))
        (.cons (.elem "p" []
          (.cons (.htext "This process is automatic. Your browser will redirect to your requested content shortly.") .nil))
        .nil)))) .nil)) .nil))) .nil

set_option maxRecDepth 16384 in
/-- C8: on an anti-bot challenge page, `_detect_captcha` classifies correctly
(it returns `true`), yet `scrape_url_to_content` — which never consults it —
returns the challenge text as ordinary page content instead of reporting a
distinct challenge error. -/
theorem claim_C8_challenge_page_divergence :
    detectCaptcha challengePage = true ∧
    (scrapeUrlToContent challengePage "https://example.com" (fun _ _ => none)).isSome
      = true ∧
    strContains
      ((scrapeUrlToContent challengePage "https://example.com" (fun _ _ => none)).getD "")
      "Checking your browser" = true := by
  refine ⟨by decide, by decide, by decide⟩
